import Mathlib

/-!
Verification of the Chronicle lock-free ring buffer
(`src/ring-buffer/ring_buffer.c` and `ring_buffer.h`).

The C code is shallowly embedded as pure Lean functions:

* the arena is a `List Nat` of byte values, indexed from 0;
* `size_t`/`uint32_t`/`uint64_t` arithmetic is `Nat` arithmetic with explicit
  `% 2 ^ w` or `&&&` masks exactly where the C code relies on the machine width;
* the atomic cursor fields become plain record fields: one API call is one
  sequential execution (the CAS at `ring_buffer.c:353` succeeds on the first
  try, as it does in any single-threaded run); an interleaving of two
  producers is modelled explicitly with `write_reserve` below;
* the out-parameter of `ring_buffer_read` becomes an `Option ring_buffer_message`
  result (the C code leaves partially filled fields in `*msg` on failure;
  callers may only use `*msg` on success, so the failure contents are not
  modelled);
* a NULL handle is `none` at the `Option ring_buffer` boundary of the
  accessors; the `rb->buffer` NULL/MAP_FAILED pointer check inside
  `ring_buffer_validate` has no counterpart (the model stores the arena bytes
  directly, so a dangling byte pointer is not representable);
* `ring_buffer_write` takes the `clock_gettime` result as an explicit `ts`
  argument;
* the comparison `ring_buffer_utilization(rb) >= rb->backpressure_threshold`
  on C `double`s is embedded over `Rat`.  For a power-of-two capacity
  `N < 2 ^ 52` the C comparison is exact: `(double)used / (double)N` is a
  dyadic rational represented exactly, the `double` nearest 0.8 is
  3602879701896397 / 2 ^ 52 > 4/5, and no dyadic `used / N` lies between 4/5
  and that value, so the `double` test agrees with the rational test
  `used / N ≥ 4/5` used here.
-/

/-- `RING_BUFFER_MAGIC` ("RBFR"), `ring_buffer.c:22`. -/
def RING_BUFFER_MAGIC : Nat := 0x52424652

/-- `CRC32_POLYNOMIAL` (IEEE 802.3, reflected), `ring_buffer.c:25`. -/
def CRC32_POLYNOMIAL : Nat := 0xEDB88320

/-- `RING_BUFFER_DEFAULT_SIZE` (64 MiB), `ring_buffer.h:25`. -/
def RING_BUFFER_DEFAULT_SIZE : Nat := 64 * 1024 * 1024

/-- `RING_BUFFER_MAX_MESSAGE_SIZE` (16 MiB), `ring_buffer.h:31`. -/
def RING_BUFFER_MAX_MESSAGE_SIZE : Nat := 16 * 1024 * 1024

/-- `ARROW_IPC_MAGIC` ("ARAW"), `ring_buffer.h:34`. -/
def ARROW_IPC_MAGIC : Nat := 0x41524157

/-- `MESSAGE_ALIGNMENT`, `ring_buffer.h:37`. -/
def MESSAGE_ALIGNMENT : Nat := 8

/-- `sizeof(arrow_ipc_header_t)`: 4+4+8+4+4 packed bytes, `ring_buffer.h:59`. -/
def ARROW_IPC_HEADER_SIZE : Nat := 24

/-- `align_size`, `ring_buffer.c:39`: `(size + 7) & ~7` on a 64-bit `size_t`;
`~7` is `2 ^ 64 - 8`. -/
def align_size (size : Nat) : Nat :=
  (size + MESSAGE_ALIGNMENT - 1) &&& (2 ^ 64 - MESSAGE_ALIGNMENT)

/-- `total_message_size`, `ring_buffer.c:53`. -/
def total_message_size (data_size : Nat) : Nat :=
  align_size (ARROW_IPC_HEADER_SIZE + data_size)

/-- Byte store at consecutive indices; `List.set` past the end is a no-op,
mirroring that the C code never writes out of bounds on the paths we reach. -/
def store_bytes : List Nat → Nat → List Nat → List Nat
  | buf, _, [] => buf
  | buf, pos, b :: rest => store_bytes (buf.set pos b) (pos + 1) rest

/-- Byte fetch of `len` consecutive bytes starting at `pos`. -/
def read_bytes (buf : List Nat) (pos len : Nat) : List Nat :=
  (List.range len).map fun j => buf.getD (pos + j) 0

/-- `safe_memcpy`, `ring_buffer.c:44`, specialised to a copy into the arena:
fails exactly when `n > dest_size` (the NULL-pointer tests cannot fail in the
model, where both buffers are values). -/
def safe_memcpy (buf : List Nat) (pos : Nat) (src : List Nat)
    (dest_size : Nat) : Option (List Nat) :=
  if src.length > dest_size then none else some (store_bytes buf pos src)

/-- `safe_memcpy` specialised to a copy out of the arena into a local
(`ring_buffer_read`'s header fetch): fails exactly when `len > dest_size`. -/
def safe_memcpy_read (buf : List Nat) (pos len dest_size : Nat) :
    Option (List Nat) :=
  if len > dest_size then none else some (read_bytes buf pos len)

/-- The two-branch copy used for both the header (`ring_buffer.c:376-387`)
and the payload (`ring_buffer.c:392-403`): a single `safe_memcpy` with
`dest_size = size - pos` when the range does not wrap, otherwise a split at
`first_part = size - pos` with `dest_size`s `first_part` and `size`. -/
def copy_bytes (buf : List Nat) (n pos : Nat) (src : List Nat) :
    Option (List Nat) :=
  if pos + src.length ≤ n then
    safe_memcpy buf pos src (n - pos)
  else
    match safe_memcpy buf pos (src.take (n - pos)) (n - pos) with
    | none => none
    | some buf1 => safe_memcpy buf1 0 (src.drop (n - pos)) n

/-- The header fetch of `ring_buffer_read`, `ring_buffer.c:436-449`. -/
def fetch_header (buf : List Nat) (n pos : Nat) : Option (List Nat) :=
  if pos + ARROW_IPC_HEADER_SIZE ≤ n then
    safe_memcpy_read buf pos ARROW_IPC_HEADER_SIZE ARROW_IPC_HEADER_SIZE
  else
    match safe_memcpy_read buf pos (n - pos) ARROW_IPC_HEADER_SIZE with
    | none => none
    | some part1 =>
      match safe_memcpy_read buf 0 (ARROW_IPC_HEADER_SIZE - (n - pos))
          (ARROW_IPC_HEADER_SIZE - (n - pos)) with
      | none => none
      | some part2 => some (part1 ++ part2)

/-- Little-endian encoding of the low `k` bytes of `v`. -/
def le_bytes : Nat → Nat → List Nat
  | 0, _ => []
  | k + 1, v => v % 256 :: le_bytes k (v / 256)

/-- Little-endian decoding of a byte list. -/
def de_bytes : List Nat → Nat
  | [] => 0
  | b :: rest => b + 256 * de_bytes rest

/-- `arrow_ipc_header_t`, `ring_buffer.h:59-65` (packed, 24 bytes). -/
structure arrow_ipc_header where
  magic : Nat
  length : Nat
  timestamp : Nat
  checksum : Nat
  reserved : Nat
deriving DecidableEq

/-- The in-arena byte image of a header (packed little-endian, the layout of
`arrow_ipc_header_t` on the x86-64 target). -/
def serialize_header (h : arrow_ipc_header) : List Nat :=
  le_bytes 4 h.magic ++ (le_bytes 4 h.length ++ (le_bytes 8 h.timestamp ++
    (le_bytes 4 h.checksum ++ le_bytes 4 h.reserved)))

/-- Recover the header fields from a 24-byte arena image. -/
def parse_header (bs : List Nat) : arrow_ipc_header :=
  { magic := de_bytes (bs.take 4)
    length := de_bytes ((bs.drop 4).take 4)
    timestamp := de_bytes ((bs.drop 8).take 8)
    checksum := de_bytes ((bs.drop 16).take 4)
    reserved := de_bytes ((bs.drop 20).take 4) }

/-- One reflected CRC-32 bit step, the loop body of `init_crc32_table`,
`ring_buffer.c:67-72`. -/
def crc32_step (crc : Nat) : Nat :=
  if crc % 2 = 1 then (crc >>> 1) ^^^ CRC32_POLYNOMIAL else crc >>> 1

/-- `crc32_table[i]`, `ring_buffer.c:62-77`: eight bit steps applied to `i`. -/
def crc32_table (i : Nat) : Nat := crc32_step^[8] i

/-- `ring_buffer_crc32`, `ring_buffer.c:79-92` (table-driven). -/
def ring_buffer_crc32 (data : List Nat) : Nat :=
  (data.foldl (fun crc b => crc32_table ((crc ^^^ b) &&& 0xFF) ^^^ (crc >>> 8))
      0xFFFFFFFF) ^^^ 0xFFFFFFFF

/-- The bit-at-a-time reflected CRC-32 reference (polynomial `0xEDB88320`,
initial value `0xFFFFFFFF`, final XOR `0xFFFFFFFF`): eight bit steps applied
to `crc XOR byte` for each byte.  This is the spec-side definition the
table-driven `ring_buffer_crc32` is compared against. -/
def crc32_reference (data : List Nat) : Nat :=
  (data.foldl (fun crc b => crc32_step^[8] (crc ^^^ b)) 0xFFFFFFFF) ^^^
    0xFFFFFFFF

/-- `ring_buffer_next_power_of_2`, `ring_buffer.c:100-110`, on a 64-bit
`size_t`: the final `n + 1` is reduced `% 2 ^ 64` (it overflows exactly when
the input exceeds `2 ^ 63`); the decrement and the or-shift cascade cannot
overflow. -/
def ring_buffer_next_power_of_2 (n : Nat) : Nat :=
  if n = 0 then 1 else
    let m := n - 1
    let m := m ||| (m >>> 1)
    let m := m ||| (m >>> 2)
    let m := m ||| (m >>> 4)
    let m := m ||| (m >>> 8)
    let m := m ||| (m >>> 16)
    let m := m ||| (m >>> 32)
    (m + 1) % 2 ^ 64

/-- `ring_buffer_error_t`, `ring_buffer.h:42-51`, plus the undeclared
identifier `RING_BUFFER_ERROR` that `ring_buffer.c` returns from the
`safe_memcpy` failure branches (lines 378, 385, 394, 401, 440, 447) without
it being a member of the enum. -/
inductive ring_buffer_error where
  | RING_BUFFER_SUCCESS
  | RING_BUFFER_ERROR_INVALID_PARAM
  | RING_BUFFER_ERROR_MEMORY
  | RING_BUFFER_ERROR_FULL
  | RING_BUFFER_ERROR_EMPTY
  | RING_BUFFER_ERROR_TOO_LARGE
  | RING_BUFFER_ERROR_CORRUPTED
  | RING_BUFFER_ERROR_BACKPRESSURE
  | RING_BUFFER_ERROR
deriving DecidableEq

/-- `ring_buffer_stats_t`, `ring_buffer.h:70-78`. -/
structure ring_buffer_stats where
  messages_written : Nat
  messages_read : Nat
  bytes_written : Nat
  bytes_read : Nat
  write_errors : Nat
  read_errors : Nat
  backpressure_events : Nat
deriving DecidableEq

/-- `ring_buffer_t`, `ring_buffer.h:87-117`. -/
structure ring_buffer where
  buffer : List Nat
  size : Nat
  fd : Int
  write_pos : Nat
  read_pos : Nat
  commit_pos : Nat
  is_full : Bool
  backpressure : Bool
  messages_written : Nat
  messages_read : Nat
  bytes_written : Nat
  bytes_read : Nat
  write_errors : Nat
  read_errors : Nat
  backpressure_events : Nat
  backpressure_threshold : Rat
  magic : Nat
deriving DecidableEq

/-- `ring_buffer_message_t`, `ring_buffer.h:122-126`. -/
structure ring_buffer_message where
  header : arrow_ipc_header
  data : List Nat
  data_size : Nat
deriving DecidableEq

/-- The initialised arena of capacity `n` built by `ring_buffer_create`,
`ring_buffer.c:122-176`: zeroed bytes (both the `mmap` and the
`malloc`+`memset` path hand back a zeroed region), cursors and counters 0,
flags false, `fd = -1`, threshold `RING_BUFFER_BACKPRESSURE_THRESHOLD`,
descriptor magic set. -/
def ring_buffer_init (n : Nat) : ring_buffer :=
  { buffer := List.replicate n 0
    size := n
    fd := -1
    write_pos := 0
    read_pos := 0
    commit_pos := 0
    is_full := false
    backpressure := false
    messages_written := 0
    messages_read := 0
    bytes_written := 0
    bytes_read := 0
    write_errors := 0
    read_errors := 0
    backpressure_events := 0
    backpressure_threshold := 4 / 5
    magic := RING_BUFFER_MAGIC }

/-- `ring_buffer_create`, `ring_buffer.c:112-118` (allocation always succeeds
in the model): 0 means the default size, then round up to a power of two. -/
def ring_buffer_create (size : Nat) : ring_buffer :=
  let size := if size = 0 then RING_BUFFER_DEFAULT_SIZE else size
  ring_buffer_init (ring_buffer_next_power_of_2 size)

/-- `ring_buffer_validate`, `ring_buffer.c:272-300`: descriptor magic,
power-of-two capacity, cursors in range.  (The `rb->buffer` pointer check has
no model counterpart, see the header comment.) -/
def ring_buffer_validate : Option ring_buffer → Bool
  | none => false
  | some rb =>
    if rb.magic ≠ RING_BUFFER_MAGIC then false
    else if rb.size = 0 ∨ rb.size &&& (rb.size - 1) ≠ 0 then false
    else if rb.size ≤ rb.write_pos ∨ rb.size ≤ rb.read_pos ∨
        rb.size ≤ rb.commit_pos then false
    else true

/-- The `used` computation shared by `ring_buffer_utilization`,
`ring_buffer.c:207-212`. -/
def rb_used (rb : ring_buffer) : Nat :=
  if rb.read_pos ≤ rb.write_pos then rb.write_pos - rb.read_pos
  else rb.size - (rb.read_pos - rb.write_pos)

/-- `ring_buffer_utilization`, `ring_buffer.c:201-215`, as an exact rational
(see the header comment on `double` exactness). -/
def ring_buffer_utilization : Option ring_buffer → Rat
  | none => 0
  | some rb => (rb_used rb : Rat) / (rb.size : Rat)

/-- `ring_buffer_available_write`, `ring_buffer.c:217-228`. -/
def ring_buffer_available_write : Option ring_buffer → Nat
  | none => 0
  | some rb =>
    if rb.read_pos ≤ rb.write_pos then
      rb.size - (rb.write_pos - rb.read_pos) - 1
    else
      rb.read_pos - rb.write_pos - 1

/-- `ring_buffer_available_read`, `ring_buffer.c:230-241` (reads the commit
cursor, not the write cursor). -/
def ring_buffer_available_read : Option ring_buffer → Nat
  | none => 0
  | some rb =>
    if rb.read_pos ≤ rb.commit_pos then
      rb.commit_pos - rb.read_pos
    else
      rb.size - (rb.read_pos - rb.commit_pos)

/-- `ring_buffer_is_backpressure`, `ring_buffer.c:243-246`. -/
def ring_buffer_is_backpressure : Option ring_buffer → Bool
  | none => false
  | some rb => rb.backpressure

/-- `ring_buffer_get_stats`, `ring_buffer.c:248-258`: the second argument is
the contents of the caller's `stats` out-parameter (`none` for a NULL
pointer); on a NULL arena or NULL stats pointer it is returned unchanged. -/
def ring_buffer_get_stats :
    Option ring_buffer → Option ring_buffer_stats → Option ring_buffer_stats
  | some rb, some _ =>
    some { messages_written := rb.messages_written
           messages_read := rb.messages_read
           bytes_written := rb.bytes_written
           bytes_read := rb.bytes_read
           write_errors := rb.write_errors
           read_errors := rb.read_errors
           backpressure_events := rb.backpressure_events }
  | _, prev => prev

/-- `ring_buffer_reset_stats`, `ring_buffer.c:260-270`. -/
def ring_buffer_reset_stats : Option ring_buffer → Option ring_buffer
  | none => none
  | some rb =>
    some { rb with
            messages_written := 0
            messages_read := 0
            bytes_written := 0
            bytes_read := 0
            write_errors := 0
            read_errors := 0
            backpressure_events := 0 }

/-- How `ring_buffer_destroy` releases the backing region,
`ring_buffer.c:183-196`: `munmap` plus `close` when `fd >= 0`, otherwise
try-`munmap`-then-`free`; nothing when the buffer pointer is NULL. -/
inductive release_mechanism where
  | munmap_and_close
  | munmap_with_free_fallback
  | no_release
deriving DecidableEq

/-- The observable outcome of `ring_buffer_destroy` on a non-NULL handle:
the descriptor contents at the moment `free(rb)` runs, and the release
mechanism chosen for the backing region. -/
structure destroy_trace where
  final_magic : Nat
  mechanism : release_mechanism
deriving DecidableEq

/-- `ring_buffer_destroy`, `ring_buffer.c:180-199`: a NULL handle is a no-op;
otherwise the backing region is released and the descriptor freed.  No field
of the descriptor is written before `free(rb)`, so `final_magic` is the
unchanged `rb.magic`. -/
def ring_buffer_destroy : Option ring_buffer → Option destroy_trace
  | none => none
  | some rb =>
    some { final_magic := rb.magic
           mechanism :=
             if rb.buffer.length ≠ 0 then
               if 0 ≤ rb.fd then .munmap_and_close
               else .munmap_with_free_fallback
             else .no_release }

/-- `ring_buffer_write`, `ring_buffer.c:316-416`, one sequential execution
(`data = NULL` is not representable; a zero-length payload triggers the same
`INVALID_PARAM` return).  `ts` is the `ring_buffer_timestamp()` value. -/
def ring_buffer_write (rb : ring_buffer) (data : List Nat) (ts : Nat) :
    ring_buffer_error × ring_buffer :=
  if data.length = 0 then (.RING_BUFFER_ERROR_INVALID_PARAM, rb)
  else if ring_buffer_validate (some rb) = false then
    (.RING_BUFFER_ERROR_CORRUPTED, { rb with write_errors := rb.write_errors + 1 })
  else if RING_BUFFER_MAX_MESSAGE_SIZE < data.length then
    (.RING_BUFFER_ERROR_TOO_LARGE, { rb with write_errors := rb.write_errors + 1 })
  else if rb.backpressure_threshold ≤ ring_buffer_utilization (some rb) then
    (.RING_BUFFER_ERROR_BACKPRESSURE,
      { rb with backpressure := true
                backpressure_events := rb.backpressure_events + 1 })
  -- past this point the C code has stored `backpressure = false`; the flag
  -- does not influence `ring_buffer_available_write`, so the fit check is
  -- written on `rb` and the cleared flag is carried in every result state
  else if ring_buffer_available_write (some rb) < total_message_size data.length then
    (.RING_BUFFER_ERROR_FULL,
      { rb with backpressure := false
                write_errors := rb.write_errors + 1 })
  -- the reservation CAS has now advanced `write_pos` (ring_buffer.c:353);
  -- the header is the one built at ring_buffer.c:365-371 with the casts to
  -- `uint32_t`/`uint64_t` made explicit
  else
    match copy_bytes rb.buffer rb.size rb.write_pos
        (serialize_header
          { magic := ARROW_IPC_MAGIC
            length := data.length % 2 ^ 32
            timestamp := ts % 2 ^ 64
            checksum := ring_buffer_crc32 data
            reserved := 0 }) with
    | none =>
      (.RING_BUFFER_ERROR,
        { rb with backpressure := false
                  write_pos := (rb.write_pos + total_message_size data.length) &&&
                    (rb.size - 1) })
    | some buf1 =>
      match copy_bytes buf1 rb.size
          ((rb.write_pos + ARROW_IPC_HEADER_SIZE) &&& (rb.size - 1)) data with
      | none =>
        (.RING_BUFFER_ERROR,
          { rb with backpressure := false
                    buffer := buf1
                    write_pos := (rb.write_pos + total_message_size data.length) &&&
                      (rb.size - 1) })
      | some buf2 =>
        (.RING_BUFFER_SUCCESS,
          { rb with backpressure := false
                    buffer := buf2
                    write_pos := (rb.write_pos + total_message_size data.length) &&&
                      (rb.size - 1)
                    commit_pos := (rb.write_pos + total_message_size data.length) &&&
                      (rb.size - 1)
                    messages_written := rb.messages_written + 1
                    bytes_written := rb.bytes_written + data.length })

/-- `ring_buffer_read`, `ring_buffer.c:418-503`, one sequential execution
(`msg = NULL` is not representable).  On success the third component carries
the borrowed view handed back through `*msg`. -/
def ring_buffer_read (rb : ring_buffer) :
    ring_buffer_error × ring_buffer × Option ring_buffer_message :=
  if ring_buffer_validate (some rb) = false then
    (.RING_BUFFER_ERROR_CORRUPTED,
      { rb with read_errors := rb.read_errors + 1 }, none)
  else if ring_buffer_available_read (some rb) < ARROW_IPC_HEADER_SIZE then
    (.RING_BUFFER_ERROR_EMPTY, rb, none)
  else
    match fetch_header rb.buffer rb.size rb.read_pos with
    | none => (.RING_BUFFER_ERROR, rb, none)
    | some hdr_bytes =>
      if (parse_header hdr_bytes).magic ≠ ARROW_IPC_MAGIC then
        (.RING_BUFFER_ERROR_CORRUPTED,
          { rb with read_errors := rb.read_errors + 1 }, none)
      else if RING_BUFFER_MAX_MESSAGE_SIZE < (parse_header hdr_bytes).length then
        (.RING_BUFFER_ERROR_CORRUPTED,
          { rb with read_errors := rb.read_errors + 1 }, none)
      else if ring_buffer_available_read (some rb) <
          total_message_size (parse_header hdr_bytes).length then
        (.RING_BUFFER_ERROR_EMPTY, rb, none)
      else if ((rb.read_pos + ARROW_IPC_HEADER_SIZE) &&& (rb.size - 1)) +
          (parse_header hdr_bytes).length ≤ rb.size then
        if ring_buffer_crc32 (read_bytes rb.buffer
              ((rb.read_pos + ARROW_IPC_HEADER_SIZE) &&& (rb.size - 1))
              (parse_header hdr_bytes).length) ≠
            (parse_header hdr_bytes).checksum then
          (.RING_BUFFER_ERROR_CORRUPTED,
            { rb with read_errors := rb.read_errors + 1 }, none)
        else
          (.RING_BUFFER_SUCCESS,
            { rb with
                read_pos := (rb.read_pos +
                    total_message_size (parse_header hdr_bytes).length) &&&
                  (rb.size - 1)
                messages_read := rb.messages_read + 1
                bytes_read := rb.bytes_read + (parse_header hdr_bytes).length },
            some { header := parse_header hdr_bytes
                   data := read_bytes rb.buffer
                     ((rb.read_pos + ARROW_IPC_HEADER_SIZE) &&& (rb.size - 1))
                     (parse_header hdr_bytes).length
                   data_size := (parse_header hdr_bytes).length })
      else
        (.RING_BUFFER_ERROR_CORRUPTED,
          { rb with read_errors := rb.read_errors + 1 }, none)

/-- The successful CAS of `ring_buffer.c:349-353` in isolation: one producer
reserves `msg_size` bytes by advancing `write_pos`; the copies and the commit
have not happened yet.  Used to model an interleaving of two producers. -/
def write_reserve (rb : ring_buffer) (msg_size : Nat) : ring_buffer :=
  { rb with write_pos := (rb.write_pos + msg_size) &&& (rb.size - 1) }

/-! ## Bitwise and alignment lemmas -/

theorem two_pow_land_sub_one (e : Nat) : 2 ^ e &&& (2 ^ e - 1) = 0 := by
  rw [Nat.and_pow_two_sub_one_eq_mod]
  exact Nat.mod_self _

theorem land_sub_one_lt {x e : Nat} (h : x < 2 ^ e) :
    x &&& (2 ^ e - 1) = x := by
  rw [Nat.and_pow_two_sub_one_eq_mod, Nat.mod_eq_of_lt h]

theorem testBit_false_of_lt {x i : Nat} (hx : x < 2 ^ i) :
    x.testBit i = false := Nat.testBit_lt_two_pow hx

theorem align_size_eq {s : Nat} (h : s + 7 < 2 ^ 64) :
    align_size s = (s + 7) / 8 * 8 := by
  have hx : (s + 7) / 8 * 8 = ((s + 7) >>> 3) <<< 3 := by
    rw [Nat.shiftRight_eq_div_pow, Nat.shiftLeft_eq]
  show (s + 8 - 1) &&& (2 ^ 64 - MESSAGE_ALIGNMENT) = (s + 7) / 8 * 8
  rw [show s + 8 - 1 = s + 7 from by omega, hx,
    show (2 : Nat) ^ 64 - MESSAGE_ALIGNMENT = (2 ^ 61 - 1) <<< 3 from by decide]
  apply Nat.eq_of_testBit_eq
  intro i
  rw [Nat.testBit_land, Nat.testBit_shiftLeft, Nat.testBit_shiftLeft,
    Nat.testBit_shiftRight, Nat.testBit_two_pow_sub_one]
  by_cases h3 : 3 ≤ i
  · have h34 : 3 + (i - 3) = i := by omega
    by_cases h61 : i - 3 < 61
    · simp [ge_iff_le, h3, h61, h34]
    · have hib : (s + 7).testBit i = false :=
        testBit_false_of_lt
          (lt_of_lt_of_le h (Nat.pow_le_pow_right (by omega) (by omega)))
      simp [ge_iff_le, h3, h61, h34, hib]
  · simp [ge_iff_le, h3]

theorem align_size_ge {s : Nat} (h : s + 7 < 2 ^ 64) : s ≤ align_size s := by
  rw [align_size_eq h]
  omega

theorem align_size_le {s : Nat} (h : s + 7 < 2 ^ 64) :
    align_size s ≤ s + 7 := by
  rw [align_size_eq h]
  omega

/-! ## Byte-store and byte-fetch lemmas -/

theorem store_bytes_length (bs : List Nat) :
    ∀ buf pos, (store_bytes buf pos bs).length = buf.length := by
  induction bs with
  | nil => intro buf pos; rfl
  | cons b rest ih =>
    intro buf pos
    rw [store_bytes, ih, List.length_set]

theorem getD_set (buf : List Nat) (pos i b : Nat) :
    (buf.set pos b).getD i 0 =
      if pos = i ∧ pos < buf.length then b else buf.getD i 0 := by
  rw [List.getD_eq_getElem?_getD, List.getD_eq_getElem?_getD, List.getElem?_set]
  by_cases hpi : pos = i
  · subst hpi
    by_cases hlen : pos < buf.length
    · simp [hlen]
    · rw [if_pos rfl, if_neg hlen, if_neg (by tauto),
        List.getElem?_eq_none (by omega)]
  · simp [hpi]

theorem store_bytes_getD (bs : List Nat) :
    ∀ buf pos i, (store_bytes buf pos bs).getD i 0 =
      if pos ≤ i ∧ i < pos + bs.length ∧ i < buf.length then bs.getD (i - pos) 0
      else buf.getD i 0 := by
  induction bs with
  | nil =>
    intro buf pos i
    rw [show store_bytes buf pos [] = buf from rfl,
      if_neg (by simp only [List.length_nil]; omega)]
  | cons b rest ih =>
    intro buf pos i
    rw [store_bytes, ih, List.length_set, getD_set]
    by_cases h1 : pos + 1 ≤ i ∧ i < pos + 1 + rest.length ∧ i < buf.length
    · rw [if_pos h1, if_pos (by simp only [List.length_cons]; omega),
        show i - pos = (i - (pos + 1)) + 1 from by omega, List.getD_cons_succ]
    · rw [if_neg h1]
      by_cases h2 : pos = i ∧ pos < buf.length
      · rw [if_pos h2, if_pos (by simp only [List.length_cons]; omega),
          show i - pos = 0 from by omega, List.getD_cons_zero]
      · rw [if_neg h2, if_neg (by simp only [List.length_cons]; omega)]

theorem read_bytes_succ (buf : List Nat) (pos n : Nat) :
    read_bytes buf pos (n + 1) =
      buf.getD pos 0 :: read_bytes buf (pos + 1) n := by
  unfold read_bytes
  rw [List.range_succ_eq_map, List.map_cons, List.map_map]
  refine congrArg₂ _ (by rw [Nat.add_zero]) ?_
  apply List.map_eq_map_iff.mpr
  intro a _
  show buf.getD (pos + (a + 1)) 0 = buf.getD (pos + 1 + a) 0
  rw [Nat.add_comm a 1, ← Nat.add_assoc]

theorem read_bytes_store_bytes (bs : List Nat) :
    ∀ buf pos, pos + bs.length ≤ buf.length →
      read_bytes (store_bytes buf pos bs) pos bs.length = bs := by
  induction bs with
  | nil => intro buf pos _; rfl
  | cons b rest ih =>
    intro buf pos hle
    rw [List.length_cons, read_bytes_succ, store_bytes]
    refine congrArg₂ _ ?_ ?_
    · rw [store_bytes_getD,
        if_neg (by simp only [List.length_set]; simp only [List.length_cons] at hle; omega),
        getD_set, if_pos (by simp only [List.length_cons] at hle; omega)]
    · exact ih (buf.set pos b) (pos + 1)
        (by simp only [List.length_set]; simp only [List.length_cons] at hle; omega)

theorem read_bytes_store_bytes_left (bs buf : List Nat)
    {pos qos len : Nat} (h : qos + len ≤ pos) :
    read_bytes (store_bytes buf pos bs) qos len = read_bytes buf qos len := by
  unfold read_bytes
  apply List.map_eq_map_iff.mpr
  intro a ha
  rw [List.mem_range] at ha
  rw [store_bytes_getD, if_neg (by omega)]

theorem read_bytes_replicate (n pos len : Nat) :
    read_bytes (List.replicate n 0) pos len = List.replicate len 0 := by
  induction len generalizing pos with
  | zero => rfl
  | succ k ih =>
    rw [read_bytes_succ, ih, List.replicate_succ]
    refine congrArg₂ _ ?_ rfl
    rw [List.getD_eq_getElem?_getD, List.getElem?_replicate]
    by_cases h : pos < n <;> simp [h]

/-! ## Little-endian codec lemmas -/

theorem le_bytes_length (k : Nat) : ∀ v, (le_bytes k v).length = k := by
  induction k with
  | zero => intro v; rfl
  | succ n ih => intro v; rw [le_bytes, List.length_cons, ih]

theorem de_bytes_le_bytes (k : Nat) :
    ∀ v, de_bytes (le_bytes k v) = v % 256 ^ k := by
  induction k with
  | zero => intro v; simp [le_bytes, de_bytes, Nat.mod_one]
  | succ n ih =>
    intro v
    rw [le_bytes, de_bytes, ih, pow_succ, mul_comm ((256 : Nat) ^ n) 256,
      Nat.mod_mul]

theorem take_len_append (l₁ l₂ : List Nat) {n : Nat} (hl : l₁.length = n) :
    (l₁ ++ l₂).take n = l₁ := by
  subst hl
  exact List.take_left l₁ l₂

theorem drop_len_append (l₁ l₂ : List Nat) {n : Nat} (hl : l₁.length = n) :
    (l₁ ++ l₂).drop n = l₂ := by
  subst hl
  exact List.drop_left l₁ l₂

theorem drop_len_add_append (l₁ l₂ : List Nat) {n : Nat} (m : Nat)
    (hl : l₁.length = n) : (l₁ ++ l₂).drop (n + m) = l₂.drop m := by
  subst hl
  exact List.drop_append m

theorem parse_header_append (a b t c r : List Nat) (ha : a.length = 4)
    (hb : b.length = 4) (ht : t.length = 8) (hc : c.length = 4)
    (hr : r.length = 4) :
    parse_header (a ++ (b ++ (t ++ (c ++ r)))) =
      { magic := de_bytes a
        length := de_bytes b
        timestamp := de_bytes t
        checksum := de_bytes c
        reserved := de_bytes r } := by
  have e4 : (a ++ (b ++ (t ++ (c ++ r)))).drop 4 = b ++ (t ++ (c ++ r)) :=
    drop_len_append _ _ ha
  have e8 : (a ++ (b ++ (t ++ (c ++ r)))).drop 8 = t ++ (c ++ r) := by
    have h1 := drop_len_add_append a (b ++ (t ++ (c ++ r))) 4 ha
    have h2 := drop_len_append b (t ++ (c ++ r)) hb
    norm_num at h1
    rw [h1, h2]
  have e16 : (a ++ (b ++ (t ++ (c ++ r)))).drop 16 = c ++ r := by
    have h1 := drop_len_add_append a (b ++ (t ++ (c ++ r))) 12 ha
    have h2 := drop_len_add_append b (t ++ (c ++ r)) 8 hb
    have h3 := drop_len_add_append t (c ++ r) 0 ht
    norm_num at h1 h2 h3
    rw [h1, h2, h3]
  have e20 : (a ++ (b ++ (t ++ (c ++ r)))).drop 20 = r := by
    have h1 := drop_len_add_append a (b ++ (t ++ (c ++ r))) 16 ha
    have h2 := drop_len_add_append b (t ++ (c ++ r)) 12 hb
    have h3 := drop_len_add_append t (c ++ r) 4 ht
    have h4 := drop_len_append c r hc
    norm_num at h1 h2 h3
    rw [h1, h2, h3, h4]
  unfold parse_header
  rw [e4, e8, e16, e20, take_len_append _ _ ha, take_len_append _ _ hb,
    take_len_append _ _ ht, take_len_append _ _ hc, ← hr, List.take_length]

theorem parse_serialize_header (hd : arrow_ipc_header) :
    parse_header (serialize_header hd) =
      { magic := hd.magic % 2 ^ 32
        length := hd.length % 2 ^ 32
        timestamp := hd.timestamp % 2 ^ 64
        checksum := hd.checksum % 2 ^ 32
        reserved := hd.reserved % 2 ^ 32 } := by
  unfold serialize_header
  rw [parse_header_append _ _ _ _ _ (le_bytes_length 4 hd.magic)
    (le_bytes_length 4 hd.length) (le_bytes_length 8 hd.timestamp)
    (le_bytes_length 4 hd.checksum) (le_bytes_length 4 hd.reserved),
    de_bytes_le_bytes, de_bytes_le_bytes, de_bytes_le_bytes,
    de_bytes_le_bytes, de_bytes_le_bytes]
  norm_num

theorem serialize_header_length (hd : arrow_ipc_header) :
    (serialize_header hd).length = 24 := by
  unfold serialize_header
  rw [List.length_append, List.length_append, List.length_append,
    List.length_append, le_bytes_length, le_bytes_length, le_bytes_length,
    le_bytes_length, le_bytes_length]

/-! ## CRC-32 lemmas -/

theorem xor_shiftRight (a b k : Nat) :
    (a ^^^ b) >>> k = (a >>> k) ^^^ (b >>> k) := by
  apply Nat.eq_of_testBit_eq
  intro i
  rw [Nat.testBit_shiftRight, Nat.testBit_xor, Nat.testBit_xor,
    Nat.testBit_shiftRight, Nat.testBit_shiftRight]

theorem xor_left_comm (a b c : Nat) : a ^^^ (b ^^^ c) = b ^^^ (a ^^^ c) := by
  rw [← Nat.xor_assoc, Nat.xor_comm a b, Nat.xor_assoc]

theorem testBit_zero_eq_decide (n : Nat) :
    n.testBit 0 = decide (n % 2 = 1) := Nat.testBit_zero n

theorem crc32_step_xor (a b : Nat) :
    crc32_step (a ^^^ b) = crc32_step a ^^^ crc32_step b := by
  have hx : (a ^^^ b).testBit 0 = ((a.testBit 0).xor (b.testBit 0)) :=
    Nat.testBit_xor a b 0
  unfold crc32_step
  by_cases ha : a % 2 = 1 <;> by_cases hb : b % 2 = 1
  · simp only [testBit_zero_eq_decide, ha, hb, decide_True, Bool.xor_self] at hx
    have hab : ¬ (a ^^^ b) % 2 = 1 := by simpa using hx
    rw [if_neg hab, if_pos ha, if_pos hb, xor_shiftRight,
      Nat.xor_assoc (a >>> 1), xor_left_comm CRC32_POLYNOMIAL,
      Nat.xor_self, Nat.xor_zero]
  · simp only [testBit_zero_eq_decide, ha, hb, decide_True, decide_False,
      Bool.true_xor, Bool.not_false] at hx
    have hab : (a ^^^ b) % 2 = 1 := by simpa using hx
    rw [if_pos hab, if_pos ha, if_neg hb, xor_shiftRight,
      Nat.xor_assoc (a >>> 1), Nat.xor_comm (b >>> 1) CRC32_POLYNOMIAL,
      Nat.xor_assoc]
  · simp only [testBit_zero_eq_decide, ha, hb, decide_True, decide_False,
      Bool.xor_true, Bool.not_false] at hx
    have hab : (a ^^^ b) % 2 = 1 := by simpa using hx
    rw [if_pos hab, if_neg ha, if_pos hb, xor_shiftRight, Nat.xor_assoc]
  · simp only [testBit_zero_eq_decide, ha, hb, decide_False,
      Bool.xor_false] at hx
    have hab : ¬ (a ^^^ b) % 2 = 1 := by simpa using hx
    rw [if_neg hab, if_neg ha, if_neg hb, xor_shiftRight]

theorem crc32_step_iterate_xor (k : Nat) : ∀ a b,
    crc32_step^[k] (a ^^^ b) = crc32_step^[k] a ^^^ crc32_step^[k] b := by
  induction k with
  | zero => intro a b; rfl
  | succ n ih =>
    intro a b
    rw [Function.iterate_succ_apply, Function.iterate_succ_apply,
      Function.iterate_succ_apply, crc32_step_xor, ih]

theorem crc32_step_two_mul (y : Nat) : crc32_step (2 * y) = y := by
  unfold crc32_step
  rw [if_neg (by omega), show (2 * y) >>> 1 = 2 * y / 2 from rfl]
  omega

theorem crc32_step_iterate_mul_pow (k : Nat) :
    ∀ y, crc32_step^[k] (y * 2 ^ k) = y := by
  induction k with
  | zero => intro y; simp
  | succ n ih =>
    intro y
    rw [Function.iterate_succ_apply,
      show y * 2 ^ (n + 1) = 2 * (y * 2 ^ n) from by ring,
      crc32_step_two_mul, ih]

theorem xor_low_high (x : Nat) : (x % 256) ^^^ ((x >>> 8) <<< 8) = x := by
  apply Nat.eq_of_testBit_eq
  intro i
  rw [Nat.testBit_xor, show (256 : Nat) = 2 ^ 8 from by norm_num,
    Nat.testBit_mod_two_pow, Nat.testBit_shiftLeft, Nat.testBit_shiftRight]
  by_cases h8 : i < 8
  · have h8' : ¬ (8 : Nat) ≤ i := by omega
    simp [ge_iff_le, h8, h8']
  · have h8' : (8 : Nat) ≤ i := by omega
    have h88 : 8 + (i - 8) = i := by omega
    simp [ge_iff_le, h8, h8', h88]

theorem crc32_step8_decomp (x : Nat) :
    crc32_step^[8] x = crc32_step^[8] (x % 256) ^^^ (x >>> 8) := by
  conv_lhs => rw [← xor_low_high x]
  rw [crc32_step_iterate_xor]
  have h3 : crc32_step^[8] ((x >>> 8) <<< 8) = x >>> 8 := by
    rw [Nat.shiftLeft_eq, crc32_step_iterate_mul_pow]
  rw [h3]

theorem crc32_update_eq (crc b : Nat) (hb : b < 256) :
    crc32_table ((crc ^^^ b) &&& 0xFF) ^^^ (crc >>> 8) =
      crc32_step^[8] (crc ^^^ b) := by
  have h1 : (crc ^^^ b) &&& 0xFF = (crc ^^^ b) % 256 := by
    rw [show (0xFF : Nat) = 2 ^ 8 - 1 from by norm_num,
      Nat.and_pow_two_sub_one_eq_mod]
  have h2 : crc >>> 8 = (crc ^^^ b) >>> 8 := by
    apply Nat.eq_of_testBit_eq
    intro i
    have hb2 : b < 2 ^ (8 + i) := by
      have h28 : (2 : Nat) ^ 8 ≤ 2 ^ (8 + i) :=
        Nat.pow_le_pow_right (by omega) (by omega)
      omega
    rw [Nat.testBit_shiftRight, Nat.testBit_shiftRight, Nat.testBit_xor,
      testBit_false_of_lt hb2]
    simp
  rw [h1, h2, crc32_table, ← crc32_step8_decomp]

theorem crc32_foldl_eq (l : List Nat) (hb : ∀ b ∈ l, b < 256) : ∀ crc,
    l.foldl (fun crc b => crc32_table ((crc ^^^ b) &&& 0xFF) ^^^ (crc >>> 8))
        crc =
      l.foldl (fun crc b => crc32_step^[8] (crc ^^^ b)) crc := by
  induction l with
  | nil => intro crc; rfl
  | cons x xs ih =>
    intro crc
    rw [List.foldl_cons, List.foldl_cons,
      crc32_update_eq crc x (hb x (by simp)),
      ih (fun b hb2 => hb b (by simp [hb2]))]

theorem crc32_step_lt {c : Nat} (hc : c < 2 ^ 32) : crc32_step c < 2 ^ 32 := by
  have hs : c >>> 1 < 2 ^ 32 :=
    lt_of_le_of_lt (by rw [show c >>> 1 = c / 2 from rfl]; omega) hc
  unfold crc32_step
  split
  · exact Nat.xor_lt_two_pow hs (by norm_num [CRC32_POLYNOMIAL])
  · exact hs

theorem crc32_step_iterate_lt (k : Nat) {c : Nat} (hc : c < 2 ^ 32) :
    crc32_step^[k] c < 2 ^ 32 := by
  induction k with
  | zero => exact hc
  | succ n ih => rw [Function.iterate_succ_apply']; exact crc32_step_lt ih

theorem crc32_foldl_lt (l : List Nat) : ∀ crc, crc < 2 ^ 32 →
    l.foldl (fun crc b => crc32_table ((crc ^^^ b) &&& 0xFF) ^^^ (crc >>> 8))
        crc < 2 ^ 32 := by
  induction l with
  | nil => intro crc hc; exact hc
  | cons x xs ih =>
    intro crc hc
    rw [List.foldl_cons]
    apply ih
    apply Nat.xor_lt_two_pow
    · apply crc32_step_iterate_lt
      exact lt_of_le_of_lt (Nat.and_le_right) (by norm_num)
    · exact lt_of_le_of_lt (by rw [Nat.shiftRight_eq_div_pow]; omega) hc

theorem ring_buffer_crc32_lt (data : List Nat) :
    ring_buffer_crc32 data < 2 ^ 32 := by
  unfold ring_buffer_crc32
  exact Nat.xor_lt_two_pow (crc32_foldl_lt data 0xFFFFFFFF (by norm_num))
    (by norm_num)

/-! ## Power-of-two rounding lemmas -/

/-- Each set bit of `orig` has, in `cur`, the `k` positions ending at it all
set: the invariant of the or-shift cascade of `ring_buffer_next_power_of_2`,
which saturates all bits below the most significant set bit. -/
def bit_filled (k orig cur : Nat) : Prop :=
  ∀ i j, orig.testBit i = true → j ≤ i → i < j + k → cur.testBit j = true

theorem bit_filled_one (n : Nat) : bit_filled 1 n n := by
  intro i j hi hji hij
  have hje : j = i := by omega
  rw [hje]
  exact hi

theorem bit_filled_or_shift {k orig cur : Nat} (h : bit_filled k orig cur) :
    bit_filled (2 * k) orig (cur ||| (cur >>> k)) := by
  intro i j hi hji hij
  rw [Nat.testBit_lor, Nat.testBit_shiftRight]
  by_cases hjk : i < j + k
  · rw [h i j hi hji hjk, Bool.true_or]
  · rw [h i (k + j) hi (by omega) (by omega), Bool.or_true]

theorem shiftRight_le_self (n k : Nat) : n >>> k ≤ n := by
  rw [Nat.shiftRight_eq_div_pow]
  exact Nat.div_le_self _ _

theorem lor_shift_lt {n b k : Nat} (h : n < 2 ^ b) :
    (n ||| (n >>> k)) < 2 ^ b :=
  Nat.or_lt_two_pow h (lt_of_le_of_lt (shiftRight_le_self n k) h)

theorem testBit_size_sub_one {n : Nat} (hn : n ≠ 0) :
    n.testBit (n.size - 1) = true := by
  have hs : n.size ≠ 0 := by simpa [Nat.size_eq_zero] using hn
  have h1 : 2 ^ (n.size - 1) ≤ n := Nat.lt_size.mp (by omega)
  have h2 : n < 2 ^ n.size := Nat.lt_size_self n
  have hss : n.size - 1 + 1 = n.size := by omega
  have h3 : n < 2 * 2 ^ (n.size - 1) := by
    have hp2 : (2 : Nat) ^ (n.size - 1) * 2 = 2 ^ n.size := by
      rw [← pow_succ, hss]
    omega
  have hdiv : n / 2 ^ (n.size - 1) = 1 := by
    have hp : 0 < 2 ^ (n.size - 1) := Nat.pos_pow_of_pos _ (by omega)
    have ha : 1 ≤ n / 2 ^ (n.size - 1) := (Nat.one_le_div_iff hp).mpr h1
    have hb : n / 2 ^ (n.size - 1) < 2 := (Nat.div_lt_iff_lt_mul hp).mpr h3
    omega
  rw [Nat.testBit_to_div_mod, hdiv]
  decide

theorem next_pow2_eq {n : Nat} (h1 : 1 ≤ n) (h2 : n ≤ 2 ^ 63) :
    ring_buffer_next_power_of_2 n = 2 ^ (Nat.size (n - 1)) := by
  unfold ring_buffer_next_power_of_2
  rw [if_neg (by omega)]
  by_cases hn1 : n = 1
  · subst hn1
    rw [show (1 : Nat) - 1 = 0 from rfl, Nat.size_zero]
    rfl
  have hm0 : 1 ≤ n - 1 := by omega
  set m0 := n - 1 with hm0def
  set m1 := m0 ||| (m0 >>> 1) with hm1def
  set m2 := m1 ||| (m1 >>> 2) with hm2def
  set m3 := m2 ||| (m2 >>> 4) with hm3def
  set m4 := m3 ||| (m3 >>> 8) with hm4def
  set m5 := m4 ||| (m4 >>> 16) with hm5def
  set m6 := m5 ||| (m5 >>> 32) with hm6def
  change (m6 + 1) % 2 ^ 64 = 2 ^ m0.size
  have hsz : m0 < 2 ^ m0.size := Nat.lt_size_self m0
  have hszle : m0.size ≤ 63 := by
    apply Nat.size_le.mpr
    have : (2 : Nat) ^ 63 ≤ 2 ^ 63 := le_rfl
    omega
  have hb6 : m6 < 2 ^ m0.size := by
    apply lor_shift_lt
    apply lor_shift_lt
    apply lor_shift_lt
    apply lor_shift_lt
    apply lor_shift_lt
    apply lor_shift_lt
    exact hsz
  have hf1 : bit_filled 2 m0 m1 := by
    have := bit_filled_or_shift (bit_filled_one m0)
    norm_num at this
    exact this
  have hf2 : bit_filled 4 m0 m2 := by
    have := bit_filled_or_shift hf1
    norm_num at this
    exact this
  have hf3 : bit_filled 8 m0 m3 := by
    have := bit_filled_or_shift hf2
    norm_num at this
    exact this
  have hf4 : bit_filled 16 m0 m4 := by
    have := bit_filled_or_shift hf3
    norm_num at this
    exact this
  have hf5 : bit_filled 32 m0 m5 := by
    have := bit_filled_or_shift hf4
    norm_num at this
    exact this
  have hf6 : bit_filled 64 m0 m6 := by
    have := bit_filled_or_shift hf5
    norm_num at this
    exact this
  have hmsb : m0.testBit (m0.size - 1) = true := testBit_size_sub_one (by omega)
  have hfill : ∀ j, j < m0.size → m6.testBit j = true := by
    intro j hj
    have hsz64 : m0.size ≤ 64 := by omega
    exact hf6 (m0.size - 1) j hmsb (by omega) (by omega)
  have hm6 : m6 = 2 ^ m0.size - 1 := by
    apply Nat.eq_of_testBit_eq
    intro i
    rw [Nat.testBit_two_pow_sub_one]
    by_cases hi : i < m0.size
    · rw [hfill i hi]
      simp [hi]
    · have hlt : m6 < 2 ^ i :=
        lt_of_lt_of_le hb6 (Nat.pow_le_pow_right (by omega) (by omega))
      rw [testBit_false_of_lt hlt]
      simp [hi]
  rw [hm6]
  have hpos : 0 < 2 ^ m0.size := Nat.pos_pow_of_pos _ (by omega)
  have hlt64 : 2 ^ m0.size < 2 ^ 64 := by
    have := Nat.pow_le_pow_right (show 1 ≤ 2 by omega) hszle
    have h6364 : (2 : Nat) ^ 63 < 2 ^ 64 := by norm_num
    omega
  rw [show 2 ^ m0.size - 1 + 1 = 2 ^ m0.size from by omega]
  exact Nat.mod_eq_of_lt hlt64

theorem next_pow2_ge {n : Nat} (h1 : 1 ≤ n) (h2 : n ≤ 2 ^ 63) :
    n ≤ ring_buffer_next_power_of_2 n := by
  rw [next_pow2_eq h1 h2]
  have := Nat.lt_size_self (n - 1)
  omega

theorem next_pow2_min {n : Nat} (h1 : 1 ≤ n) (h2 : n ≤ 2 ^ 63) :
    ∀ m, n ≤ 2 ^ m → ring_buffer_next_power_of_2 n ≤ 2 ^ m := by
  intro m hm
  rw [next_pow2_eq h1 h2]
  exact Nat.pow_le_pow_right (by omega) (Nat.size_le.mpr (by omega))

/-! ## Validate characterisation -/

theorem validate_some_iff (rb : ring_buffer) :
    ring_buffer_validate (some rb) = true ↔
      (rb.magic = RING_BUFFER_MAGIC ∧ rb.size ≠ 0 ∧
        rb.size &&& (rb.size - 1) = 0 ∧ rb.write_pos < rb.size ∧
        rb.read_pos < rb.size ∧ rb.commit_pos < rb.size) := by
  simp only [ring_buffer_validate]
  split_ifs with ha hb hc
  · simp only [Bool.false_eq_true, false_iff]
    intro h
    exact ha h.1
  · simp only [Bool.false_eq_true, false_iff]
    intro h
    rcases hb with hb | hb
    · exact h.2.1 hb
    · exact hb h.2.2.1
  · simp only [Bool.false_eq_true, false_iff]
    intro h
    rcases hc with hc | hc | hc <;> omega
  · simp only [true_iff]
    push_neg at ha hb hc
    exact ⟨ha, hb.1, hb.2, hc.1, hc.2.1, hc.2.2⟩

/-! ## Claims -/

/-- Claim C10: on a NULL arena handle every accessor is total and silent:
`ring_buffer_utilization` returns `0.0`, `ring_buffer_available_write` and
`ring_buffer_available_read` return `0`, `ring_buffer_is_backpressure` and
`ring_buffer_validate` return `false`, `ring_buffer_get_stats` and
`ring_buffer_reset_stats` return without writing anything. -/
theorem ring_buffer_null_accessors :
    ring_buffer_utilization none = 0 ∧
    ring_buffer_available_write none = 0 ∧
    ring_buffer_available_read none = 0 ∧
    ring_buffer_is_backpressure none = false ∧
    ring_buffer_validate none = false ∧
    (∀ prev, ring_buffer_get_stats none prev = prev) ∧
    ring_buffer_reset_stats none = none :=
  ⟨rfl, rfl, rfl, rfl, rfl, fun _ => rfl, rfl⟩

/-- Claim C5: for cursors in `[0, N)` with `N` a power of two,
`ring_buffer_available_write` returns `N - 1 - used` where
`used = (write_pos - read_pos) mod N` is exactly the occupancy
`ring_buffer_utilization` divides by `N`; hence `used + free = N - 1`,
across both the wrapped and the non-wrapped branch of each function. -/
theorem ring_buffer_occupancy (rb : ring_buffer) (hpow : ∃ e, rb.size = 2 ^ e)
    (hw : rb.write_pos < rb.size) (hr : rb.read_pos < rb.size) :
    ring_buffer_available_write (some rb) = rb.size - 1 - rb_used rb ∧
    (rb_used rb : Int) =
      ((rb.write_pos : Int) - (rb.read_pos : Int)) % (rb.size : Int) ∧
    rb_used rb + ring_buffer_available_write (some rb) = rb.size - 1 ∧
    ring_buffer_utilization (some rb) = (rb_used rb : Rat) / (rb.size : Rat) := by
  obtain ⟨e, he⟩ := hpow
  have hN : 0 < rb.size := by
    rw [he]
    exact Nat.pos_pow_of_pos _ (by omega)
  refine ⟨?_, ?_, ?_, rfl⟩
  · simp only [ring_buffer_available_write, rb_used]
    split_ifs <;> omega
  · simp only [rb_used]
    split_ifs with hgo
    · rw [Int.emod_eq_of_lt (by omega) (by omega)]
      omega
    · have h1 : ((rb.write_pos : Int) - rb.read_pos + (rb.size : Int) * 1) %
          (rb.size : Int) =
          ((rb.write_pos : Int) - rb.read_pos) % (rb.size : Int) :=
        Int.add_mul_emod_self_left _ _ _
      rw [mul_one] at h1
      rw [← h1, Int.emod_eq_of_lt (by omega) (by omega)]
      omega
  · simp only [ring_buffer_available_write, rb_used]
    split_ifs <;> omega

/-- Claim C8, counterexample: `ring_buffer_destroy` does NOT zero the
descriptor magic before freeing the descriptor — on a freshly created arena
the descriptor still carries `RING_BUFFER_MAGIC` (nonzero) at the moment
`free(rb)` runs. -/
theorem ring_buffer_destroy_magic_not_zeroed :
    ring_buffer_destroy (some (ring_buffer_create 64)) =
      some { final_magic := RING_BUFFER_MAGIC
             mechanism := .munmap_with_free_fallback } ∧
    RING_BUFFER_MAGIC ≠ 0 := by
  constructor
  · decide
  · decide

/-- Claim C8, amended: `ring_buffer_destroy` is a no-op on a NULL handle; on
a non-NULL handle it releases the backing region (`munmap` plus `close` when
`fd ≥ 0` was recorded, otherwise try-`munmap`-then-`free`; nothing when the
buffer pointer is NULL) and frees the descriptor WITHOUT zeroing the magic
field, which keeps its original value. -/
theorem ring_buffer_destroy_spec :
    ring_buffer_destroy none = none ∧
    (∀ rb : ring_buffer, ∃ t, ring_buffer_destroy (some rb) = some t ∧
      t.final_magic = rb.magic ∧
      (rb.buffer.length ≠ 0 → 0 ≤ rb.fd → t.mechanism = .munmap_and_close) ∧
      (rb.buffer.length ≠ 0 → rb.fd < 0 →
        t.mechanism = .munmap_with_free_fallback) ∧
      (rb.buffer.length = 0 → t.mechanism = .no_release)) := by
  refine ⟨rfl, fun rb => ⟨_, rfl, rfl, ?_, ?_, ?_⟩⟩
  · intro hb hfd
    simp [hb, hfd]
  · intro hb hfd
    simp [hb, hfd]
  · intro hb
    simp [hb]

theorem ring_buffer_destroy_spec_witness :
    ∃ t, ring_buffer_destroy (some (ring_buffer_init 64)) = some t ∧
      t.final_magic = RING_BUFFER_MAGIC ∧
      t.mechanism = .munmap_with_free_fallback := by
  obtain ⟨t, h1, h2, h3, h4, h5⟩ := ring_buffer_destroy_spec.2 (ring_buffer_init 64)
  refine ⟨t, h1, h2, h4 (by decide) (by decide)⟩

/-- Claim C6: for `1 ≤ k ≤ 2^63`, `ring_buffer_create k` yields capacity
`ring_buffer_next_power_of_2 k`, which is the least power of two `≥ k`
(hence 1023 rounds to 1024, 1025 to 2048, and powers of two are unchanged);
`ring_buffer_create 0` uses the 64 MiB default capacity. -/
theorem ring_buffer_create_capacity (k : Nat) (h1 : 1 ≤ k) (h2 : k ≤ 2 ^ 63) :
    (ring_buffer_create k).size = ring_buffer_next_power_of_2 k ∧
    (∃ e, ring_buffer_next_power_of_2 k = 2 ^ e) ∧
    k ≤ ring_buffer_next_power_of_2 k ∧
    (∀ m, k ≤ 2 ^ m → ring_buffer_next_power_of_2 k ≤ 2 ^ m) ∧
    (ring_buffer_create 0).size = RING_BUFFER_DEFAULT_SIZE := by
  refine ⟨?_, ⟨(k - 1).size, next_pow2_eq h1 h2⟩, next_pow2_ge h1 h2,
    next_pow2_min h1 h2, ?_⟩
  · show ring_buffer_next_power_of_2 (if k = 0 then RING_BUFFER_DEFAULT_SIZE else k) =
      ring_buffer_next_power_of_2 k
    rw [if_neg (by omega)]
  · show ring_buffer_next_power_of_2
        (if (0 : Nat) = 0 then RING_BUFFER_DEFAULT_SIZE else 0) =
      RING_BUFFER_DEFAULT_SIZE
    rw [if_pos rfl]
    have hd : RING_BUFFER_DEFAULT_SIZE = 2 ^ 26 := by
      norm_num [RING_BUFFER_DEFAULT_SIZE]
    have hge := @next_pow2_ge (2 ^ 26) (by norm_num) (by norm_num)
    have hmin := @next_pow2_min (2 ^ 26) (by norm_num) (by norm_num) 26 le_rfl
    rw [hd]
    omega

theorem ring_buffer_create_capacity_witness :
    1 ≤ 1025 ∧ 1025 ≤ 2 ^ 63 ∧ (ring_buffer_create 1025).size = 2048 ∧
    (ring_buffer_create 1023).size = 1024 := by
  have h25 := ring_buffer_create_capacity 1025 (by decide) (by decide)
  have h23 := ring_buffer_create_capacity 1023 (by decide) (by decide)
  refine ⟨by decide, by decide, ?_, ?_⟩
  · rw [h25.1]
    decide
  · rw [h23.1]
    decide

/-- Claim C7: the table-driven `ring_buffer_crc32` (polynomial `0xEDB88320`,
initial value `0xFFFFFFFF`, final XOR `0xFFFFFFFF`) computes the
bit-at-a-time reflected CRC-32/IEEE-802.3 reference checksum on every byte
sequence. -/
theorem ring_buffer_crc32_is_ieee (data : List Nat)
    (hb : ∀ b ∈ data, b < 256) :
    ring_buffer_crc32 data = crc32_reference data := by
  unfold ring_buffer_crc32 crc32_reference
  rw [crc32_foldl_eq data hb]

theorem ring_buffer_crc32_is_ieee_witness :
    (∀ b ∈ [72, 101, 108, 108, 111, 44, 32, 87, 111, 114, 108, 100, 33],
      b < 256) ∧
    ring_buffer_crc32 [72, 101, 108, 108, 111, 44, 32, 87, 111, 114, 108, 100, 33] =
      crc32_reference [72, 101, 108, 108, 111, 44, 32, 87, 111, 114, 108, 100, 33] :=
  ⟨by decide, ring_buffer_crc32_is_ieee _ (by decide)⟩

/-- Claim C2: whenever `ring_buffer_read` returns `Corrupted` it increments
`read_errors` by exactly 1 and leaves `read_pos`, `write_pos`, `commit_pos`,
the arena bytes, `messages_read` and `bytes_read` unchanged (this covers the
magic-mismatch, oversize-length, checksum-mismatch and wrapped-payload
branches, which are the only `Corrupted` returns besides the descriptor
validation failure — and that one changes nothing else either). -/
theorem ring_buffer_read_corrupted_atomic (rb : ring_buffer)
    (h : (ring_buffer_read rb).1 = .RING_BUFFER_ERROR_CORRUPTED) :
    ((ring_buffer_read rb).2.1).read_errors = rb.read_errors + 1 ∧
    ((ring_buffer_read rb).2.1).read_pos = rb.read_pos ∧
    ((ring_buffer_read rb).2.1).write_pos = rb.write_pos ∧
    ((ring_buffer_read rb).2.1).commit_pos = rb.commit_pos ∧
    ((ring_buffer_read rb).2.1).buffer = rb.buffer ∧
    ((ring_buffer_read rb).2.1).messages_read = rb.messages_read ∧
    ((ring_buffer_read rb).2.1).bytes_read = rb.bytes_read := by
  have hstate : (ring_buffer_read rb).2.1 =
      { rb with read_errors := rb.read_errors + 1 } := by
    unfold ring_buffer_read at h ⊢
    by_cases h1 : ring_buffer_validate (some rb) = false
    · rw [if_pos h1]
    · rw [if_neg h1] at h ⊢
      by_cases h2 : ring_buffer_available_read (some rb) < ARROW_IPC_HEADER_SIZE
      · rw [if_pos h2] at h
        simp at h
      · rw [if_neg h2] at h ⊢
        rcases hfe : fetch_header rb.buffer rb.size rb.read_pos with _ | hdr_bytes
        · rw [hfe] at h
          simp at h
        · simp only [hfe] at h ⊢
          by_cases h3 : (parse_header hdr_bytes).magic ≠ ARROW_IPC_MAGIC
          · rw [if_pos h3]
          · rw [if_neg h3] at h ⊢
            by_cases h4 : RING_BUFFER_MAX_MESSAGE_SIZE <
                (parse_header hdr_bytes).length
            · rw [if_pos h4]
            · rw [if_neg h4] at h ⊢
              by_cases h5 : ring_buffer_available_read (some rb) <
                  total_message_size (parse_header hdr_bytes).length
              · rw [if_pos h5] at h
                simp at h
              · rw [if_neg h5] at h ⊢
                by_cases h6 : ((rb.read_pos + ARROW_IPC_HEADER_SIZE) &&&
                    (rb.size - 1)) + (parse_header hdr_bytes).length ≤ rb.size
                · rw [if_pos h6] at h ⊢
                  by_cases h7 : ring_buffer_crc32 (read_bytes rb.buffer
                        ((rb.read_pos + ARROW_IPC_HEADER_SIZE) &&& (rb.size - 1))
                        (parse_header hdr_bytes).length) ≠
                      (parse_header hdr_bytes).checksum
                  · rw [if_pos h7]
                  · rw [if_neg h7] at h
                    simp at h
                · rw [if_neg h6]
  rw [hstate]
  exact ⟨rfl, rfl, rfl, rfl, rfl, rfl, rfl⟩

theorem ring_buffer_read_corrupted_atomic_witness :
    (ring_buffer_read { ring_buffer_init 64 with commit_pos := 32 }).1 =
      .RING_BUFFER_ERROR_CORRUPTED ∧
    ((ring_buffer_read { ring_buffer_init 64 with commit_pos := 32 }).2.1).read_errors =
      ({ ring_buffer_init 64 with commit_pos := 32 } : ring_buffer).read_errors + 1 ∧
    ((ring_buffer_read { ring_buffer_init 64 with commit_pos := 32 }).2.1).read_pos =
      ({ ring_buffer_init 64 with commit_pos := 32 } : ring_buffer).read_pos := by
  have h := ring_buffer_read_corrupted_atomic
    { ring_buffer_init 64 with commit_pos := 32 } (by decide)
  exact ⟨by decide, h.1, h.2.1⟩

theorem backpressure_cond_iff (rb : ring_buffer) (hN : 0 < rb.size)
    (hthr : rb.backpressure_threshold = 4 / 5) :
    (rb.backpressure_threshold ≤ ring_buffer_utilization (some rb)) ↔
      4 * rb.size ≤ 5 * rb_used rb := by
  rw [hthr]
  simp only [ring_buffer_utilization]
  have hNQ : (0 : Rat) < (rb.size : Rat) := by exact_mod_cast hN
  rw [div_le_div_iff (by norm_num) hNQ, mul_comm ((rb_used rb : Rat)) 5]
  exact_mod_cast Iff.rfl

/-- Claim C4: with valid arguments (`validate` holds, `1 ≤ |p| ≤ 16 MiB`) and
the default threshold 0.8, if entry utilization is at least 0.8 then
`ring_buffer_write` sets the backpressure flag, increments
`backpressure_events` by 1 and returns `Backpressure` with everything else
unchanged; if entry utilization is below 0.8 the flag is cleared, so
`ring_buffer_is_backpressure` afterwards reports exactly the entry-time
utilization test of this most recent write. -/
theorem ring_buffer_write_backpressure (rb : ring_buffer) (p : List Nat)
    (ts : Nat) (hval : ring_buffer_validate (some rb) = true)
    (hlen1 : 1 ≤ p.length) (hlen2 : p.length ≤ RING_BUFFER_MAX_MESSAGE_SIZE)
    (hthr : rb.backpressure_threshold = 4 / 5) :
    (4 * rb.size ≤ 5 * rb_used rb →
      (ring_buffer_write rb p ts).1 = .RING_BUFFER_ERROR_BACKPRESSURE ∧
      (ring_buffer_write rb p ts).2 =
        { rb with backpressure := true
                  backpressure_events := rb.backpressure_events + 1 }) ∧
    (5 * rb_used rb < 4 * rb.size →
      ((ring_buffer_write rb p ts).2).backpressure = false) ∧
    ring_buffer_is_backpressure (some (ring_buffer_write rb p ts).2) =
      decide (4 * rb.size ≤ 5 * rb_used rb) := by
  obtain ⟨hm, hsz, hpw, hw, hr, hc⟩ := (validate_some_iff rb).mp hval
  have hN : 0 < rb.size := by omega
  have hbc := backpressure_cond_iff rb hN hthr
  unfold ring_buffer_write
  rw [if_neg (by omega), if_neg (by rw [hval]; simp), if_neg (by omega)]
  by_cases hbp : rb.backpressure_threshold ≤ ring_buffer_utilization (some rb)
  · have hcond : 4 * rb.size ≤ 5 * rb_used rb := hbc.mp hbp
    rw [if_pos hbp]
    refine ⟨fun _ => ⟨rfl, rfl⟩, fun hlt => absurd hcond (by omega), ?_⟩
    simp [ring_buffer_is_backpressure, hcond]
  · have hcond : ¬ 4 * rb.size ≤ 5 * rb_used rb := fun hx => hbp (hbc.mpr hx)
    rw [if_neg hbp]
    refine ⟨fun hx => absurd hx hcond, fun _ => ?_, ?_⟩
    · by_cases hfull : ring_buffer_available_write (some rb) <
          total_message_size p.length
      · rw [if_pos hfull]
      · rw [if_neg hfull]
        rcases hc1 : copy_bytes rb.buffer rb.size rb.write_pos
            (serialize_header
              { magic := ARROW_IPC_MAGIC
                length := p.length % 2 ^ 32
                timestamp := ts % 2 ^ 64
                checksum := ring_buffer_crc32 p
                reserved := 0 }) with _ | buf1
        · simp only [hc1]
        · simp only [hc1]
          rcases hc2 : copy_bytes buf1 rb.size
              ((rb.write_pos + ARROW_IPC_HEADER_SIZE) &&& (rb.size - 1)) p
              with _ | buf2
          · simp only [hc2]
          · simp only [hc2]
    · simp only [ring_buffer_is_backpressure]
      rw [decide_eq_false hcond]
      by_cases hfull : ring_buffer_available_write (some rb) <
          total_message_size p.length
      · rw [if_pos hfull]
      · rw [if_neg hfull]
        rcases hc1 : copy_bytes rb.buffer rb.size rb.write_pos
            (serialize_header
              { magic := ARROW_IPC_MAGIC
                length := p.length % 2 ^ 32
                timestamp := ts % 2 ^ 64
                checksum := ring_buffer_crc32 p
                reserved := 0 }) with _ | buf1
        · simp only [hc1]
        · simp only [hc1]
          rcases hc2 : copy_bytes buf1 rb.size
              ((rb.write_pos + ARROW_IPC_HEADER_SIZE) &&& (rb.size - 1)) p
              with _ | buf2
          · simp only [hc2]
          · simp only [hc2]

theorem ring_buffer_write_backpressure_witness :
    (ring_buffer_write { ring_buffer_init 64 with write_pos := 56 } [1] 0).1 =
      .RING_BUFFER_ERROR_BACKPRESSURE ∧
    (ring_buffer_write { ring_buffer_init 64 with write_pos := 56 } [1] 0).2.backpressure_events = 1 ∧
    ring_buffer_is_backpressure
      (some (ring_buffer_write { ring_buffer_init 64 with write_pos := 56 } [1] 0).2) = true := by
  have h := ring_buffer_write_backpressure
    { ring_buffer_init 64 with write_pos := 56 } [1] 0
    (by decide) (by decide) (by decide) rfl
  obtain ⟨he, hs⟩ := h.1 (by decide)
  refine ⟨he, ?_, ?_⟩
  · rw [hs]
    rfl
  · rw [h.2.2]
    decide

theorem ring_buffer_occupancy_witness :
    ring_buffer_available_write
        (some { ring_buffer_init 64 with write_pos := 10, read_pos := 20 }) =
      ({ ring_buffer_init 64 with write_pos := 10, read_pos := 20 } :
        ring_buffer).size - 1 -
        rb_used { ring_buffer_init 64 with write_pos := 10, read_pos := 20 } ∧
    rb_used { ring_buffer_init 64 with write_pos := 10, read_pos := 20 } +
      ring_buffer_available_write
        (some { ring_buffer_init 64 with write_pos := 10, read_pos := 20 }) =
      ({ ring_buffer_init 64 with write_pos := 10, read_pos := 20 } :
        ring_buffer).size - 1 := by
  have h := ring_buffer_occupancy
    { ring_buffer_init 64 with write_pos := 10, read_pos := 20 }
    ⟨6, rfl⟩ (by decide) (by decide)
  exact ⟨h.1, h.2.2.1⟩

theorem copy_bytes_ne_none (buf : List Nat) (n pos : Nat) (src : List Nat)
    (h : src.length ≤ n) : copy_bytes buf n pos src ≠ none := by
  unfold copy_bytes safe_memcpy
  by_cases h1 : pos + src.length ≤ n
  · rw [if_pos h1, if_neg (by omega)]
    simp
  · rw [if_neg h1]
    have ht : ¬ ((src.take (n - pos)).length > n - pos) := by
      rw [List.length_take]
      omega
    have hd : ¬ ((src.drop (n - pos)).length > n) := by
      rw [List.length_drop]
      omega
    rw [if_neg ht]
    show (if (src.drop (n - pos)).length > n then none
      else some (store_bytes (store_bytes buf pos (src.take (n - pos))) 0
        (src.drop (n - pos)))) ≠ none
    rw [if_neg hd]
    simp

theorem fetch_header_ne_none (buf : List Nat) (n pos : Nat) :
    fetch_header buf n pos ≠ none := by
  unfold fetch_header safe_memcpy_read
  by_cases h1 : pos + ARROW_IPC_HEADER_SIZE ≤ n
  · rw [if_pos h1, if_neg (by omega)]
    simp
  · rw [if_neg h1]
    have ht : ¬ (n - pos > ARROW_IPC_HEADER_SIZE) := by
      unfold ARROW_IPC_HEADER_SIZE at h1 ⊢
      omega
    rw [if_neg ht]
    show (match (if ARROW_IPC_HEADER_SIZE - (n - pos) >
          ARROW_IPC_HEADER_SIZE - (n - pos) then none
        else some (read_bytes buf 0 (ARROW_IPC_HEADER_SIZE - (n - pos)))) with
      | none => none
      | some part2 => some (read_bytes buf pos (n - pos) ++ part2)) ≠ none
    rw [if_neg (by omega)]
    simp

theorem avail_write_le (rb : ring_buffer) (hw : rb.write_pos < rb.size)
    (hr : rb.read_pos < rb.size) :
    ring_buffer_available_write (some rb) ≤ rb.size - 1 := by
  simp only [ring_buffer_available_write]
  split_ifs <;> omega

/-- Claim C9: the `safe_memcpy` failure branches of `ring_buffer_write` and
`ring_buffer_read` — which return the undeclared error name
`RING_BUFFER_ERROR` — are unreachable: on every input and state the bounds
checks that guard the path guarantee `n ≤ dest_size` for every `safe_memcpy`
call, so neither function ever produces that result. -/
theorem safe_memcpy_unreachable :
    (∀ rb p ts, ((ring_buffer_write rb p ts).1 ==
      ring_buffer_error.RING_BUFFER_ERROR) = false) ∧
    (∀ rb, ((ring_buffer_read rb).1 ==
      ring_buffer_error.RING_BUFFER_ERROR) = false) := by
  constructor
  · intro rb p ts
    unfold ring_buffer_write
    split_ifs with h1 h2 h3 h4 h5
    · rfl
    · rfl
    · rfl
    · rfl
    · rfl
    · obtain ⟨hm, hsz, hpw, hw, hr, hc⟩ := (validate_some_iff rb).mp (by
        revert h2
        cases ring_buffer_validate (some rb) <;> simp)
      have hmax : p.length ≤ RING_BUFFER_MAX_MESSAGE_SIZE := by omega
      have hbound : ARROW_IPC_HEADER_SIZE + p.length + 7 < 2 ^ 64 := by
        unfold RING_BUFFER_MAX_MESSAGE_SIZE at hmax
        unfold ARROW_IPC_HEADER_SIZE
        omega
      have hge : ARROW_IPC_HEADER_SIZE + p.length ≤
          total_message_size p.length := by
        unfold total_message_size
        exact align_size_ge hbound
      have havle := avail_write_le rb hw hr
      have hfit : total_message_size p.length ≤ rb.size - 1 := by omega
      have hn25 : 25 ≤ rb.size := by
        unfold ARROW_IPC_HEADER_SIZE at hge
        omega
      rcases hc1 : copy_bytes rb.buffer rb.size rb.write_pos
          (serialize_header
            { magic := ARROW_IPC_MAGIC
              length := p.length % 2 ^ 32
              timestamp := ts % 2 ^ 64
              checksum := ring_buffer_crc32 p
              reserved := 0 }) with _ | buf1
      · exact absurd hc1 (copy_bytes_ne_none _ _ _ _
          (by rw [serialize_header_length]; omega))
      · simp only [hc1]
        rcases hc2 : copy_bytes buf1 rb.size
            ((rb.write_pos + ARROW_IPC_HEADER_SIZE) &&& (rb.size - 1)) p
            with _ | buf2
        · exact absurd hc2 (copy_bytes_ne_none _ _ _ _ (by
            unfold ARROW_IPC_HEADER_SIZE at hge
            omega))
        · simp only [hc2]
          rfl
  · intro rb
    unfold ring_buffer_read
    split_ifs with h1 h2
    · rfl
    · rfl
    · rcases hf : fetch_header rb.buffer rb.size rb.read_pos with _ | hdr
      · exact absurd hf (fetch_header_ne_none _ _ _)
      · simp only [hf]
        split_ifs <;> rfl

/-! ## Power-of-two extraction from the validate mask check -/

theorem testBit_two_mul_add_zero (a i : Nat) (hi : i < 2) :
    (2 * a + i).testBit 0 = decide (i = 1) := by
  rw [Nat.testBit_zero]
  exact decide_eq_decide.mpr (by omega)

theorem testBit_two_mul_add_succ (a i k : Nat) (hi : i < 2) :
    (2 * a + i).testBit (k + 1) = a.testBit k := by
  rw [← Nat.testBit_div_two]
  congr 1
  omega

theorem land_two_mul_add (a b i j : Nat) (hi : i < 2) (hj : j < 2) :
    (2 * a + i) &&& (2 * b + j) = 2 * (a &&& b) + (i &&& j) := by
  have hij : i &&& j < 2 := by
    rcases (by omega : i = 0 ∨ i = 1) with h | h <;>
      rcases (by omega : j = 0 ∨ j = 1) with h2 | h2 <;>
        subst h <;> subst h2 <;> decide
  apply Nat.eq_of_testBit_eq
  intro k
  cases k with
  | zero =>
    rw [Nat.testBit_land, testBit_two_mul_add_zero a i hi,
      testBit_two_mul_add_zero b j hj,
      testBit_two_mul_add_zero (a &&& b) (i &&& j) hij]
    rcases (by omega : i = 0 ∨ i = 1) with h | h <;>
      rcases (by omega : j = 0 ∨ j = 1) with h2 | h2 <;>
        subst h <;> subst h2 <;> decide
  | succ k =>
    rw [Nat.testBit_land, testBit_two_mul_add_succ a i k hi,
      testBit_two_mul_add_succ b j k hj,
      testBit_two_mul_add_succ (a &&& b) (i &&& j) k hij, Nat.testBit_land]

theorem land_self_eq (a : Nat) : a &&& a = a := by
  apply Nat.eq_of_testBit_eq
  intro k
  rw [Nat.testBit_land, Bool.and_self]

theorem pow2_of_land_pred : ∀ n : Nat, n ≠ 0 → n &&& (n - 1) = 0 →
    ∃ e, n = 2 ^ e := by
  intro n
  induction n using Nat.strong_induction_on with
  | _ n ih =>
    intro hn h
    by_cases hodd : n % 2 = 1
    · by_cases h1 : n = 1
      · exact ⟨0, by omega⟩
      · exfalso
        have h' : (2 * (n / 2) + 1) &&& (2 * (n / 2) + 0) = 0 := by
          rw [show 2 * (n / 2) + 1 = n from by omega,
            show 2 * (n / 2) + 0 = n - 1 from by omega]
          exact h
        rw [land_two_mul_add _ _ 1 0 (by omega) (by omega), land_self_eq] at h'
        have h10 : (1 : Nat) &&& 0 = 0 := by decide
        omega
    · have hk : n / 2 ≠ 0 := by omega
      have h' : (2 * (n / 2) + 0) &&& (2 * (n / 2 - 1) + 1) = 0 := by
        rw [show 2 * (n / 2) + 0 = n from by omega,
          show 2 * (n / 2 - 1) + 1 = n - 1 from by omega]
        exact h
      rw [land_two_mul_add _ _ 0 1 (by omega) (by omega)] at h'
      have h01 : (0 : Nat) &&& 1 = 0 := by decide
      have hz : (n / 2) &&& (n / 2 - 1) = 0 := by omega
      obtain ⟨e, he⟩ := ih (n / 2) (by omega) hk hz
      exact ⟨e + 1, by rw [pow_succ]; omega⟩

theorem mask_land_of_pow2 {n x : Nat} (hpow : ∃ e, n = 2 ^ e) (hx : x < n) :
    x &&& (n - 1) = x := by
  obtain ⟨e, he⟩ := hpow
  subst he
  exact land_sub_one_lt hx

/-- Full evaluation of a successful `ring_buffer_write` when neither the
header nor the payload wraps past the arena end and the advanced cursor does
not wrap either. -/
theorem ring_buffer_write_success_eq (rb : ring_buffer) (p : List Nat)
    (ts : Nat) (hval : ring_buffer_validate (some rb) = true)
    (hlen1 : 1 ≤ p.length) (hlen2 : p.length ≤ RING_BUFFER_MAX_MESSAGE_SIZE)
    (hthr : rb.backpressure_threshold = 4 / 5)
    (hnobp : 5 * rb_used rb < 4 * rb.size)
    (hfit : total_message_size p.length ≤ ring_buffer_available_write (some rb))
    (hnw2 : rb.write_pos + ARROW_IPC_HEADER_SIZE + p.length ≤ rb.size)
    (hmaskfit : rb.write_pos + total_message_size p.length < rb.size) :
    ring_buffer_write rb p ts =
      (.RING_BUFFER_SUCCESS,
        { rb with
            backpressure := false
            buffer := store_bytes (store_bytes rb.buffer rb.write_pos
                (serialize_header
                  { magic := ARROW_IPC_MAGIC
                    length := p.length % 2 ^ 32
                    timestamp := ts % 2 ^ 64
                    checksum := ring_buffer_crc32 p
                    reserved := 0 }))
              (rb.write_pos + ARROW_IPC_HEADER_SIZE) p
            write_pos := rb.write_pos + total_message_size p.length
            commit_pos := rb.write_pos + total_message_size p.length
            messages_written := rb.messages_written + 1
            bytes_written := rb.bytes_written + p.length }) := by
  obtain ⟨hm, hsz, hpw, hw, hr, hcp⟩ := (validate_some_iff rb).mp hval
  have hpow : ∃ e, rb.size = 2 ^ e := pow2_of_land_pred rb.size hsz hpw
  have hN : 0 < rb.size := by omega
  have hlen24 : (serialize_header
      { magic := ARROW_IPC_MAGIC
        length := p.length % 2 ^ 32
        timestamp := ts % 2 ^ 64
        checksum := ring_buffer_crc32 p
        reserved := 0 }).length = 24 := serialize_header_length _
  have h24 : ARROW_IPC_HEADER_SIZE = 24 := rfl
  unfold ring_buffer_write
  rw [if_neg (by omega), if_neg (by rw [hval]; simp), if_neg (by omega),
    if_neg (fun hx =>
      absurd ((backpressure_cond_iff rb hN hthr).mp hx) (by omega)),
    if_neg (by omega)]
  have hcp1 : copy_bytes rb.buffer rb.size rb.write_pos
      (serialize_header
        { magic := ARROW_IPC_MAGIC
          length := p.length % 2 ^ 32
          timestamp := ts % 2 ^ 64
          checksum := ring_buffer_crc32 p
          reserved := 0 }) =
      some (store_bytes rb.buffer rb.write_pos
        (serialize_header
          { magic := ARROW_IPC_MAGIC
            length := p.length % 2 ^ 32
            timestamp := ts % 2 ^ 64
            checksum := ring_buffer_crc32 p
            reserved := 0 })) := by
    unfold copy_bytes safe_memcpy
    rw [if_pos (by rw [hlen24]; omega), if_neg (by rw [hlen24]; omega)]
  simp only [hcp1]
  have hmask24 : (rb.write_pos + ARROW_IPC_HEADER_SIZE) &&& (rb.size - 1) =
      rb.write_pos + ARROW_IPC_HEADER_SIZE :=
    mask_land_of_pow2 hpow (by omega)
  rw [hmask24]
  have hcp2 : copy_bytes (store_bytes rb.buffer rb.write_pos
        (serialize_header
          { magic := ARROW_IPC_MAGIC
            length := p.length % 2 ^ 32
            timestamp := ts % 2 ^ 64
            checksum := ring_buffer_crc32 p
            reserved := 0 })) rb.size
      (rb.write_pos + ARROW_IPC_HEADER_SIZE) p =
      some (store_bytes (store_bytes rb.buffer rb.write_pos
        (serialize_header
          { magic := ARROW_IPC_MAGIC
            length := p.length % 2 ^ 32
            timestamp := ts % 2 ^ 64
            checksum := ring_buffer_crc32 p
            reserved := 0 }))
        (rb.write_pos + ARROW_IPC_HEADER_SIZE) p) := by
    unfold copy_bytes safe_memcpy
    rw [if_pos (by omega), if_neg (by omega)]
  simp only [hcp2]
  have hmaskW : (rb.write_pos + total_message_size p.length) &&& (rb.size - 1) =
      rb.write_pos + total_message_size p.length :=
    mask_land_of_pow2 hpow (by omega)
  rw [hmaskW]

/-- Claim C3, counterexample: producers do NOT spin on
`commit_pos == my_write_pos_snapshot` before publishing.  Interleaving: in a
fresh 128-byte arena, producer P1's CAS reserves bytes `[0, 32)`
(`write_reserve`, snapshot 0) but P1 has not yet written its frame; producer
P2 then runs `ring_buffer_write` to completion (snapshot 32).  P2 stores
`commit_pos = 64` although at that moment `commit_pos = 0 ≠ 32`, P2's
snapshot; a reader now sees 64 committed bytes whose first frame `[0, 32)`
was never written (its header magic is 0, so the read reports `Corrupted`). -/
theorem producer_commit_no_spin :
    (write_reserve (ring_buffer_init 128) 32).commit_pos = 0 ∧
    (write_reserve (ring_buffer_init 128) 32).write_pos = 32 ∧
    (0 : Nat) ≠ 32 ∧
    (ring_buffer_write (write_reserve (ring_buffer_init 128) 32)
      [1, 2, 3, 4, 5, 6, 7, 8] 0).1 = .RING_BUFFER_SUCCESS ∧
    (ring_buffer_write (write_reserve (ring_buffer_init 128) 32)
      [1, 2, 3, 4, 5, 6, 7, 8] 0).2.commit_pos = 64 ∧
    ring_buffer_available_read (some (ring_buffer_write
      (write_reserve (ring_buffer_init 128) 32)
      [1, 2, 3, 4, 5, 6, 7, 8] 0).2) = 64 ∧
    (parse_header (read_bytes (ring_buffer_write
      (write_reserve (ring_buffer_init 128) 32)
      [1, 2, 3, 4, 5, 6, 7, 8] 0).2.buffer 0 24)).magic ≠ ARROW_IPC_MAGIC ∧
    (ring_buffer_read (ring_buffer_write
      (write_reserve (ring_buffer_init 128) 32)
      [1, 2, 3, 4, 5, 6, 7, 8] 0).2).1 = .RING_BUFFER_ERROR_CORRUPTED := by
  have hW := ring_buffer_write_success_eq
    (write_reserve (ring_buffer_init 128) 32) [1, 2, 3, 4, 5, 6, 7, 8] 0
    (by decide) (by decide) (by decide) rfl (by decide) (by decide)
    (by decide) (by decide)
  refine ⟨rfl, by decide, by decide, ?_, ?_, ?_, ?_, ?_⟩
  · rw [hW]
  · rw [hW]
    decide
  · rw [hW]
    decide
  · rw [hW]
    decide
  · rw [hW]
    decide

/-- Claim C3, amended: after a successful `ring_buffer_write` the commit
cursor equals `(snapshot + frame_size) & (N - 1)` unconditionally — the
store at `ring_buffer.c:409` does not wait for `commit_pos` to reach the
producer's own snapshot, so under concurrent producers a reader can observe
a `commit_pos` covering bytes of a frame not yet written (witnessed by the
interleaving in the companion counterexample). -/
theorem producer_commit_unconditional (rb : ring_buffer) (p : List Nat)
    (ts : Nat) (h : (ring_buffer_write rb p ts).1 = .RING_BUFFER_SUCCESS) :
    (ring_buffer_write rb p ts).2.commit_pos =
      (rb.write_pos + total_message_size p.length) &&& (rb.size - 1) := by
  unfold ring_buffer_write at h ⊢
  by_cases h1 : p.length = 0
  · rw [if_pos h1] at h
    simp at h
  · rw [if_neg h1] at h ⊢
    by_cases h2 : ring_buffer_validate (some rb) = false
    · rw [if_pos h2] at h
      simp at h
    · rw [if_neg h2] at h ⊢
      by_cases h3 : RING_BUFFER_MAX_MESSAGE_SIZE < p.length
      · rw [if_pos h3] at h
        simp at h
      · rw [if_neg h3] at h ⊢
        by_cases h4 : rb.backpressure_threshold ≤
            ring_buffer_utilization (some rb)
        · rw [if_pos h4] at h
          simp at h
        · rw [if_neg h4] at h ⊢
          by_cases h5 : ring_buffer_available_write (some rb) <
              total_message_size p.length
          · rw [if_pos h5] at h
            simp at h
          · rw [if_neg h5] at h ⊢
            rcases hc1 : copy_bytes rb.buffer rb.size rb.write_pos
                (serialize_header
                  { magic := ARROW_IPC_MAGIC
                    length := p.length % 2 ^ 32
                    timestamp := ts % 2 ^ 64
                    checksum := ring_buffer_crc32 p
                    reserved := 0 }) with _ | buf1
            · rw [hc1] at h
              simp at h
            · simp only [hc1] at h ⊢
              rcases hc2 : copy_bytes buf1 rb.size
                  ((rb.write_pos + ARROW_IPC_HEADER_SIZE) &&& (rb.size - 1)) p
                  with _ | buf2
              · rw [hc2] at h
                simp at h
              · simp only [hc2]

theorem producer_commit_unconditional_witness :
    (ring_buffer_write (write_reserve (ring_buffer_init 128) 32)
      [1, 2, 3, 4, 5, 6, 7, 8] 0).2.commit_pos =
      ((write_reserve (ring_buffer_init 128) 32).write_pos +
        total_message_size (List.length [1, 2, 3, 4, 5, 6, 7, 8])) &&&
        ((write_reserve (ring_buffer_init 128) 32).size - 1) :=
  producer_commit_unconditional _ _ _ (by
    rw [ring_buffer_write_success_eq
      (write_reserve (ring_buffer_init 128) 32) [1, 2, 3, 4, 5, 6, 7, 8] 0
      (by decide) (by decide) (by decide) rfl (by decide) (by decide)
      (by decide) (by decide)])

/-- Full evaluation of a successful `ring_buffer_read` when the header and
payload of the frame at `read_pos` do not wrap past the arena end. -/
theorem ring_buffer_read_success_eq (rb : ring_buffer) (hd : arrow_ipc_header)
    (hval : ring_buffer_validate (some rb) = true)
    (hcr : rb.read_pos ≤ rb.commit_pos)
    (hp : parse_header (read_bytes rb.buffer rb.read_pos ARROW_IPC_HEADER_SIZE) = hd)
    (hmagic : hd.magic = ARROW_IPC_MAGIC)
    (hlenmax : hd.length ≤ RING_BUFFER_MAX_MESSAGE_SIZE)
    (havM : total_message_size hd.length ≤ rb.commit_pos - rb.read_pos)
    (hMge : ARROW_IPC_HEADER_SIZE + hd.length ≤ total_message_size hd.length)
    (hnw : rb.read_pos + ARROW_IPC_HEADER_SIZE + hd.length ≤ rb.size)
    (hrM : rb.read_pos + total_message_size hd.length < rb.size)
    (hchk : ring_buffer_crc32 (read_bytes rb.buffer
        (rb.read_pos + ARROW_IPC_HEADER_SIZE) hd.length) = hd.checksum) :
    ring_buffer_read rb =
      (.RING_BUFFER_SUCCESS,
        { rb with
            read_pos := rb.read_pos + total_message_size hd.length
            messages_read := rb.messages_read + 1
            bytes_read := rb.bytes_read + hd.length },
        some { header := hd
               data := read_bytes rb.buffer
                 (rb.read_pos + ARROW_IPC_HEADER_SIZE) hd.length
               data_size := hd.length }) := by
  obtain ⟨hm, hsz, hpw, hw, hr, hcp⟩ := (validate_some_iff rb).mp hval
  have hpow : ∃ e, rb.size = 2 ^ e := pow2_of_land_pred rb.size hsz hpw
  have h24 : ARROW_IPC_HEADER_SIZE = 24 := rfl
  have hlen1 : 1 ≤ hd.length ∨ hd.length = 0 := by omega
  have hav : ring_buffer_available_read (some rb) =
      rb.commit_pos - rb.read_pos := by
    simp only [ring_buffer_available_read]
    rw [if_pos hcr]
  have hMpos : ARROW_IPC_HEADER_SIZE ≤ total_message_size hd.length := by omega
  unfold ring_buffer_read
  rw [if_neg (by rw [hval]; simp), if_neg (by rw [hav]; omega)]
  have hfe : fetch_header rb.buffer rb.size rb.read_pos =
      some (read_bytes rb.buffer rb.read_pos ARROW_IPC_HEADER_SIZE) := by
    unfold fetch_header safe_memcpy_read
    rw [if_pos (by omega), if_neg (by omega)]
  simp only [hfe]
  rw [hp, if_neg (by rw [hmagic]; simp), if_neg (by omega),
    if_neg (by rw [hav]; omega)]
  have hmask24 : (rb.read_pos + ARROW_IPC_HEADER_SIZE) &&& (rb.size - 1) =
      rb.read_pos + ARROW_IPC_HEADER_SIZE :=
    mask_land_of_pow2 hpow (by omega)
  rw [hmask24, if_pos (by omega), if_neg (by rw [hchk]; simp)]
  have hmaskR : (rb.read_pos + total_message_size hd.length) &&& (rb.size - 1) =
      rb.read_pos + total_message_size hd.length :=
    mask_land_of_pow2 hpow (by omega)
  rw [hmaskR]

/-- A drained arena (`read_pos = commit_pos`) reads back `Empty`. -/
theorem ring_buffer_read_empty_eq (rb : ring_buffer)
    (hval : ring_buffer_validate (some rb) = true)
    (heq : rb.read_pos = rb.commit_pos) :
    (ring_buffer_read rb).1 = .RING_BUFFER_ERROR_EMPTY := by
  unfold ring_buffer_read
  have hav : ring_buffer_available_read (some rb) = 0 := by
    simp only [ring_buffer_available_read]
    rw [if_pos (by omega)]
    omega
  rw [if_neg (by rw [hval]; simp), hav,
    if_pos (by unfold ARROW_IPC_HEADER_SIZE; omega)]

/-- Claim C1: round-trip on a freshly created arena.  For a payload `p` with
`1 ≤ |p| ≤ 16 MiB` and a power-of-two capacity `N = 2 ^ e` satisfying
`align8(24 + |p|) ≤ N - 1`, `ring_buffer_write` returns `Success`, a
subsequent `ring_buffer_read` returns `Success` with payload bytes equal to
`p` bytewise, `header.length = |p|`, `header.magic = 0x41524157` and
`header.checksum = CRC32(p)`, and a second `ring_buffer_read` returns
`Empty`. -/
theorem ring_buffer_round_trip (e : Nat) (p : List Nat) (ts : Nat)
    (hlen1 : 1 ≤ p.length) (hlen2 : p.length ≤ RING_BUFFER_MAX_MESSAGE_SIZE)
    (hts : ts < 2 ^ 64)
    (hcap : total_message_size p.length ≤ 2 ^ e - 1) :
    (ring_buffer_write (ring_buffer_init (2 ^ e)) p ts).1 =
      .RING_BUFFER_SUCCESS ∧
    (ring_buffer_read (ring_buffer_write (ring_buffer_init (2 ^ e)) p ts).2).1 =
      .RING_BUFFER_SUCCESS ∧
    (ring_buffer_read (ring_buffer_write (ring_buffer_init (2 ^ e)) p ts).2).2.2 =
      some { header := { magic := ARROW_IPC_MAGIC
                         length := p.length
                         timestamp := ts
                         checksum := ring_buffer_crc32 p
                         reserved := 0 }
             data := p
             data_size := p.length } ∧
    (ring_buffer_read (ring_buffer_read
        (ring_buffer_write (ring_buffer_init (2 ^ e)) p ts).2).2.1).1 =
      .RING_BUFFER_ERROR_EMPTY := by
  have h24 : ARROW_IPC_HEADER_SIZE = 24 := rfl
  have hmax : RING_BUFFER_MAX_MESSAGE_SIZE = 16777216 := rfl
  have hNpos : 0 < 2 ^ e := Nat.pos_pow_of_pos e (by omega)
  have hb7 : (ARROW_IPC_HEADER_SIZE + p.length) + 7 < 2 ^ 64 := by
    rw [h24]
    rw [hmax] at hlen2
    omega
  have hge : ARROW_IPC_HEADER_SIZE + p.length ≤ total_message_size p.length := by
    unfold total_message_size
    exact align_size_ge hb7
  have hMeq : total_message_size p.length =
      (ARROW_IPC_HEADER_SIZE + p.length + 7) / 8 * 8 := by
    unfold total_message_size
    exact align_size_eq hb7
  have hM32 : 32 ≤ total_message_size p.length := by
    rw [hMeq, h24]
    omega
  have hMN : total_message_size p.length < 2 ^ e := by omega
  have hN33 : 33 ≤ 2 ^ e := by omega
  have hp32 : p.length < 2 ^ 32 := by
    rw [hmax] at hlen2
    omega
  have hval0 : ring_buffer_validate (some (ring_buffer_init (2 ^ e))) = true := by
    rw [validate_some_iff]
    refine ⟨rfl, ?_, two_pow_land_sub_one e, ?_, ?_, ?_⟩
    · show (2 : Nat) ^ e ≠ 0
      omega
    · show (0 : Nat) < 2 ^ e
      omega
    · show (0 : Nat) < 2 ^ e
      omega
    · show (0 : Nat) < 2 ^ e
      omega
  have hused0 : rb_used (ring_buffer_init (2 ^ e)) = 0 := by
    simp [rb_used, ring_buffer_init]
  have havail0 : ring_buffer_available_write (some (ring_buffer_init (2 ^ e))) =
      2 ^ e - 1 := by
    simp [ring_buffer_available_write, ring_buffer_init]
  have hW := ring_buffer_write_success_eq (ring_buffer_init (2 ^ e)) p ts hval0
    hlen1 hlen2 rfl
    (by rw [hused0]; show 5 * 0 < 4 * 2 ^ e; omega)
    (by rw [havail0]; exact hcap)
    (by show 0 + ARROW_IPC_HEADER_SIZE + p.length ≤ 2 ^ e; rw [h24]; rw [h24] at hge; omega)
    (by show 0 + total_message_size p.length < 2 ^ e; omega)
  have hWbuf : (ring_buffer_write (ring_buffer_init (2 ^ e)) p ts).2.buffer =
      store_bytes (store_bytes (List.replicate (2 ^ e) 0) 0
        (serialize_header
          { magic := ARROW_IPC_MAGIC
            length := p.length % 2 ^ 32
            timestamp := ts % 2 ^ 64
            checksum := ring_buffer_crc32 p
            reserved := 0 }))
        ARROW_IPC_HEADER_SIZE p := by
    rw [hW]
    simp [ring_buffer_init]
  have hWread : (ring_buffer_write (ring_buffer_init (2 ^ e)) p ts).2.read_pos = 0 := by
    rw [hW]
    simp [ring_buffer_init]
  have hWcommit : (ring_buffer_write (ring_buffer_init (2 ^ e)) p ts).2.commit_pos =
      total_message_size p.length := by
    rw [hW]
    simp [ring_buffer_init]
  have hWwrite : (ring_buffer_write (ring_buffer_init (2 ^ e)) p ts).2.write_pos =
      total_message_size p.length := by
    rw [hW]
    simp [ring_buffer_init]
  have hWsize : (ring_buffer_write (ring_buffer_init (2 ^ e)) p ts).2.size = 2 ^ e := by
    rw [hW]
    simp [ring_buffer_init]
  have hWmagic : (ring_buffer_write (ring_buffer_init (2 ^ e)) p ts).2.magic =
      RING_BUFFER_MAGIC := by
    rw [hW]
    simp [ring_buffer_init]
  have hlenH : (serialize_header
      { magic := ARROW_IPC_MAGIC
        length := p.length % 2 ^ 32
        timestamp := ts % 2 ^ 64
        checksum := ring_buffer_crc32 p
        reserved := 0 }).length = ARROW_IPC_HEADER_SIZE :=
    serialize_header_length _
  have hval1 : ring_buffer_validate
      (some (ring_buffer_write (ring_buffer_init (2 ^ e)) p ts).2) = true := by
    rw [validate_some_iff]
    refine ⟨hWmagic, ?_, ?_, ?_, ?_, ?_⟩
    · rw [hWsize]
      omega
    · rw [hWsize]
      exact two_pow_land_sub_one e
    · rw [hWwrite, hWsize]
      omega
    · rw [hWread, hWsize]
      omega
    · rw [hWcommit, hWsize]
      omega
  have hp1 : parse_header (read_bytes
      (ring_buffer_write (ring_buffer_init (2 ^ e)) p ts).2.buffer
      (ring_buffer_write (ring_buffer_init (2 ^ e)) p ts).2.read_pos
      ARROW_IPC_HEADER_SIZE) =
      { magic := ARROW_IPC_MAGIC
        length := p.length
        timestamp := ts
        checksum := ring_buffer_crc32 p
        reserved := 0 } := by
    rw [hWbuf, hWread,
      read_bytes_store_bytes_left _ _ (by omega), ← hlenH,
      read_bytes_store_bytes _ _ _
        (by rw [hlenH, List.length_replicate, h24]; omega),
      parse_serialize_header]
    simp only [arrow_ipc_header.mk.injEq]
    refine ⟨by decide, ?_, ?_, ?_, by decide⟩
    · rw [Nat.mod_eq_of_lt hp32, Nat.mod_eq_of_lt hp32]
    · rw [Nat.mod_eq_of_lt hts, Nat.mod_eq_of_lt hts]
    · rw [Nat.mod_eq_of_lt (ring_buffer_crc32_lt p)]
  have hpay : read_bytes (ring_buffer_write (ring_buffer_init (2 ^ e)) p ts).2.buffer
      ((ring_buffer_write (ring_buffer_init (2 ^ e)) p ts).2.read_pos +
        ARROW_IPC_HEADER_SIZE) p.length = p := by
    rw [hWbuf, hWread, Nat.zero_add]
    rw [show p.length = p.length from rfl] at hlen1
    have hroundtrip := read_bytes_store_bytes p
      (store_bytes (List.replicate (2 ^ e) 0) 0
        (serialize_header
          { magic := ARROW_IPC_MAGIC
            length := p.length % 2 ^ 32
            timestamp := ts % 2 ^ 64
            checksum := ring_buffer_crc32 p
            reserved := 0 }))
      ARROW_IPC_HEADER_SIZE
      (by rw [store_bytes_length, List.length_replicate, h24]
          rw [h24] at hge
          omega)
    exact hroundtrip
  have hcr1 : (ring_buffer_write (ring_buffer_init (2 ^ e)) p ts).2.read_pos ≤
      (ring_buffer_write (ring_buffer_init (2 ^ e)) p ts).2.commit_pos := by
    rw [hWread, hWcommit]
    omega
  have havM1 : total_message_size p.length ≤
      (ring_buffer_write (ring_buffer_init (2 ^ e)) p ts).2.commit_pos -
        (ring_buffer_write (ring_buffer_init (2 ^ e)) p ts).2.read_pos := by
    rw [hWread, hWcommit]
    omega
  have hnw1 : (ring_buffer_write (ring_buffer_init (2 ^ e)) p ts).2.read_pos +
      ARROW_IPC_HEADER_SIZE + p.length ≤
      (ring_buffer_write (ring_buffer_init (2 ^ e)) p ts).2.size := by
    rw [hWread, hWsize, h24]
    rw [h24] at hge
    omega
  have hrM1 : (ring_buffer_write (ring_buffer_init (2 ^ e)) p ts).2.read_pos +
      total_message_size p.length <
      (ring_buffer_write (ring_buffer_init (2 ^ e)) p ts).2.size := by
    rw [hWread, hWsize]
    omega
  have hchk1 : ring_buffer_crc32 (read_bytes
      (ring_buffer_write (ring_buffer_init (2 ^ e)) p ts).2.buffer
      ((ring_buffer_write (ring_buffer_init (2 ^ e)) p ts).2.read_pos +
        ARROW_IPC_HEADER_SIZE) p.length) = ring_buffer_crc32 p := by
    rw [hpay]
  have hR1 := ring_buffer_read_success_eq
    (ring_buffer_write (ring_buffer_init (2 ^ e)) p ts).2
    { magic := ARROW_IPC_MAGIC
      length := p.length
      timestamp := ts
      checksum := ring_buffer_crc32 p
      reserved := 0 }
    hval1 hcr1 hp1 rfl hlen2 havM1 hge hnw1 hrM1 hchk1
  refine ⟨by rw [hW], by rw [hR1], by rw [hR1]; simp [hpay], ?_⟩
  have h2read : (ring_buffer_read
      (ring_buffer_write (ring_buffer_init (2 ^ e)) p ts).2).2.1.read_pos =
      total_message_size p.length := by
    rw [hR1]
    simp [hWread]
  have h2commit : (ring_buffer_read
      (ring_buffer_write (ring_buffer_init (2 ^ e)) p ts).2).2.1.commit_pos =
      total_message_size p.length := by
    rw [hR1]
    simp [hWcommit]
  have h2write : (ring_buffer_read
      (ring_buffer_write (ring_buffer_init (2 ^ e)) p ts).2).2.1.write_pos =
      total_message_size p.length := by
    rw [hR1]
    simp [hWwrite]
  have h2size : (ring_buffer_read
      (ring_buffer_write (ring_buffer_init (2 ^ e)) p ts).2).2.1.size = 2 ^ e := by
    rw [hR1]
    simp [hWsize]
  have h2magic : (ring_buffer_read
      (ring_buffer_write (ring_buffer_init (2 ^ e)) p ts).2).2.1.magic =
      RING_BUFFER_MAGIC := by
    rw [hR1]
    simp [hWmagic]
  apply ring_buffer_read_empty_eq
  · rw [validate_some_iff]
    refine ⟨h2magic, ?_, ?_, ?_, ?_, ?_⟩
    · rw [h2size]
      omega
    · rw [h2size]
      exact two_pow_land_sub_one e
    · rw [h2write, h2size]
      omega
    · rw [h2read, h2size]
      omega
    · rw [h2commit, h2size]
      omega
  · rw [h2read, h2commit]

theorem ring_buffer_round_trip_witness :
    (ring_buffer_write (ring_buffer_init (2 ^ 6)) [1, 2, 3, 4, 5] 7).1 =
      .RING_BUFFER_SUCCESS ∧
    (ring_buffer_read
        (ring_buffer_write (ring_buffer_init (2 ^ 6)) [1, 2, 3, 4, 5] 7).2).2.2 =
      some { header := { magic := ARROW_IPC_MAGIC
                         length := 5
                         timestamp := 7
                         checksum := ring_buffer_crc32 [1, 2, 3, 4, 5]
                         reserved := 0 }
             data := [1, 2, 3, 4, 5]
             data_size := 5 } ∧
    (ring_buffer_read (ring_buffer_read
        (ring_buffer_write (ring_buffer_init (2 ^ 6)) [1, 2, 3, 4, 5] 7).2).2.1).1 =
      .RING_BUFFER_ERROR_EMPTY := by
  have h := ring_buffer_round_trip 6 [1, 2, 3, 4, 5] 7
    (by decide) (by decide) (by decide) (by decide)
  exact ⟨h.1, h.2.2.1, h.2.2.2⟩
